import Mathlib

/-!
Verification development for the `dl-fcst-load` downloader package
(`src/downloader/src/downloader/coes_downloader.py`,
`src/downloader/src/downloader/utils.py`,
`src/downloader/src/downloader/logging.py`).

Python strings are modelled as `List Char` so that every operation is
kernel-computable.  Each Python string primitive used by the source
(`str.strip`, `str.split`, indexing `[-1]`/`[0]`, `int(...)`,
`re.sub("[^A-Za-z]", "", ...)`) is given a faithful Lean counterpart below,
and each source function is translated clause by clause.
-/

/-- Python strings, modelled as lists of characters. -/
abbrev Str := List Char

/-- Coerce a Lean string literal to the `Str` model. -/
def litS (x : String) : Str := x.data

/-- Python `s.strip(c)` for a single strip character: drop every leading and
trailing occurrence of `c`. -/
def pyStrip (c : Char) (x : Str) : Str :=
  (((x.dropWhile (· = c)).reverse).dropWhile (· = c)).reverse

/-- Python `s.strip()` (no argument): drop leading and trailing whitespace. -/
def pyTrim (x : Str) : Str :=
  (((x.dropWhile Char.isWhitespace).reverse).dropWhile Char.isWhitespace).reverse

/-- Python `s.split(sep)` for a one-character separator `sep`: empty pieces
are kept, and splitting the empty string yields `[[]]`, exactly as in Python
(`"a//b".split("/") == ["a", "", "b"]`, `"".split("/") == [""]`). -/
def pySplit (sep : Char) : Str → List Str
  | [] => [[]]
  | c :: rest =>
    let r := pySplit sep rest
    if c = sep then [] :: r
    else (c :: r.headD []) :: r.tail

/-- Python `lst[-1]` on the (always non-empty) result of `str.split`. -/
def pyLast (l : List Str) : Str := l.getLastD []

/-- Python `lst[0]` on the (always non-empty) result of `str.split`. -/
def pyHead (l : List Str) : Str := l.headD []

/-- Digits-only string to number, `none` when empty or a non-digit occurs. -/
def digitsToNat : Str → Option Nat
  | [] => none
  | l =>
    if l.all Char.isDigit then
      some (l.foldl (fun acc c => 10 * acc + (c.toNat - '0'.toNat)) 0)
    else none

/-- Python `int(s)`: surrounding whitespace is ignored, an optional single
sign is allowed, the rest must be one or more digits; any other shape raises
`ValueError`, modelled as `none`. -/
def pyInt (x : Str) : Option Int :=
  match pyTrim x with
  | '+' :: rest => (digitsToNat rest).map Int.ofNat
  | '-' :: rest => (digitsToNat rest).map (fun n => -(Int.ofNat n))
  | rest => (digitsToNat rest).map Int.ofNat

/-- Decimal digits of a natural number, most significant first.  The first
argument is structural fuel (any value `> log10 n` gives the digits). -/
def natDigitsAux : Nat → Nat → Str
  | 0, _ => []
  | fuel + 1, n =>
    if n < 10 then [Char.ofNat ('0'.toNat + n)]
    else natDigitsAux fuel (n / 10) ++ [Char.ofNat ('0'.toNat + n % 10)]

/-- Decimal digits of a natural number, most significant first. -/
def natDigits (n : Nat) : Str := natDigitsAux (n + 1) n

/-- Python `str(i)` for an integer (used by f-string interpolation). -/
def intToStr (i : Int) : Str :=
  if i < 0 then '-' :: natDigits i.natAbs else natDigits i.natAbs

/-- Lexicographic `<=` on strings by code point, Python's string order. -/
def strLe : Str → Str → Bool
  | [], _ => true
  | _ :: _, [] => false
  | a :: as, b :: bs => if a < b then true else if b < a then false else strLe as bs

/-- Lexicographic `<` on strings by code point. -/
def strLt : Str → Str → Bool
  | _, [] => false
  | [], _ :: _ => true
  | a :: as, b :: bs => if a < b then true else if b < a then false else strLt as bs

/-- A Python `datetime.date`: the constructor below enforces validity, so a
value of this type is compared lexicographically by (year, month, day),
exactly as Python compares `date` objects. -/
structure PyDate where
  year : Int
  month : Int
  day : Int
deriving DecidableEq, Repr

/-- Strict order on dates (lexicographic on components). -/
def PyDate.lt (a b : PyDate) : Prop :=
  a.year < b.year ∨ (a.year = b.year ∧
    (a.month < b.month ∨ (a.month = b.month ∧ a.day < b.day)))

/-- Non-strict order on dates (lexicographic on components). -/
def PyDate.le (a b : PyDate) : Prop :=
  a.year < b.year ∨ (a.year = b.year ∧
    (a.month < b.month ∨ (a.month = b.month ∧ a.day ≤ b.day)))

instance : DecidablePred fun p : PyDate × PyDate => PyDate.lt p.1 p.2 := by
  intro p; unfold PyDate.lt; infer_instance

instance (a b : PyDate) : Decidable (PyDate.lt a b) := by
  unfold PyDate.lt; infer_instance

instance (a b : PyDate) : Decidable (PyDate.le a b) := by
  unfold PyDate.le; infer_instance

/-- Gregorian leap-year rule, as in Python's `calendar`/`datetime`. -/
def isLeap (y : Int) : Bool :=
  y % 4 = 0 && (y % 100 ≠ 0 || y % 400 = 0)

/-- Days in a month, as enforced by `datetime.date`. -/
def daysInMonth (y m : Int) : Int :=
  if m = 1 ∨ m = 3 ∨ m = 5 ∨ m = 7 ∨ m = 8 ∨ m = 10 ∨ m = 12 then 31
  else if m = 4 ∨ m = 6 ∨ m = 9 ∨ m = 11 then 30
  else if isLeap y then 29 else 28

/-- Python `dt.date(year, month, day)`: raises `ValueError` (modelled as
`none`) outside the supported ranges. -/
def mkPyDate (y m d : Int) : Option PyDate :=
  if 1 ≤ y ∧ y ≤ 9999 ∧ 1 ≤ m ∧ m ≤ 12 ∧ 1 ≤ d ∧ d ≤ daysInMonth y m then
    some ⟨y, m, d⟩
  else none

/-- A naive Python `datetime` (no timezone), as produced by
`pd.to_datetime(..., format=...)`. -/
structure PyDateTime where
  date : PyDate
  hour : Int
  minute : Int
deriving DecidableEq, Repr

/-- A timezone-aware timestamp, as produced by `Series.dt.tz_localize`:
the wall-clock (naive) value plus an attached timezone name. -/
structure TzDateTime where
  naive : PyDateTime
  tz : Str
deriving DecidableEq, Repr

/-- The module-level `tz_local = ZoneInfo("America/Lima")`. -/
def tz_local : Str := litS "America/Lima"

/-- `pd.to_datetime(s, format="%d/%m/%Y %H:%M")` on one cell: exact
day/month/year hour:minute parse, `none` models a raised parse error. -/
def parseDMYHM (x : Str) : Option PyDateTime :=
  match pySplit ' ' x with
  | [dpart, tpart] =>
    match pySplit '/' dpart, pySplit ':' tpart with
    | [ds, ms, ys], [hs, mins] =>
      match digitsToNat ds, digitsToNat ms, digitsToNat ys,
            digitsToNat hs, digitsToNat mins with
      | some d, some m, some y, some h, some mi =>
        if h < 24 ∧ mi < 60 then
          (mkPyDate (Int.ofNat y) (Int.ofNat m) (Int.ofNat d)).map
            (fun dat => ⟨dat, Int.ofNat h, Int.ofNat mi⟩)
        else none
      | _, _, _, _, _ => none
    | _, _ => none
  | _ => none

/-- `pd.to_datetime(s, format="%Y/%m/%d %H:%M")` on one cell: exact
year/month/day hour:minute parse, `none` models a raised parse error. -/
def parseYMDHM (x : Str) : Option PyDateTime :=
  match pySplit ' ' x with
  | [dpart, tpart] =>
    match pySplit '/' dpart, pySplit ':' tpart with
    | [ys, ms, ds], [hs, mins] =>
      match digitsToNat ys, digitsToNat ms, digitsToNat ds,
            digitsToNat hs, digitsToNat mins with
      | some y, some m, some d, some h, some mi =>
        if h < 24 ∧ mi < 60 then
          (mkPyDate (Int.ofNat y) (Int.ofNat m) (Int.ofNat d)).map
            (fun dat => ⟨dat, Int.ofNat h, Int.ofNat mi⟩)
        else none
      | _, _, _, _, _ => none
    | _, _ => none
  | _ => none

/-- An exact decimal number `mantissa / 10 ^ exponent`: the value a numeric
cell coerces to.  Kept unevaluated so that every table computation is
kernel-computable (rational arithmetic is applied only in statements). -/
abbrev DecNum := Int × Nat

/-- The rational value of a `DecNum`. -/
def decNumToRat (v : DecNum) : Rat := (v.1 : Rat) / 10 ^ v.2

/-- `pd.to_numeric(cell, errors="coerce")` on one text cell, for the decimal
literals this data source produces: optional sign, integer digits, optional
fractional digits (at least one digit overall).  Unparseable text — including
the empty cell — coerces to missing (`none`, pandas `NaN`). -/
def parseNumeric (x : Str) : Option DecNum :=
  let core : Str → Option DecNum := fun t =>
    match pySplit '.' t with
    | [ipart] => (digitsToNat ipart).map (fun n => ((n : Int), 0))
    | [ipart, fpart] =>
      if ipart = [] ∧ fpart = [] then none
      else if (ipart.all Char.isDigit) ∧ (fpart.all Char.isDigit) then
        some ((((digitsToNat ipart).getD 0 * 10 ^ fpart.length
          + (digitsToNat fpart).getD 0 : Nat) : Int), fpart.length)
      else none
    | _ => none
  match pyTrim x with
  | '+' :: rest => core rest
  | '-' :: rest => (core rest).map (fun v => (-v.1, v.2))
  | rest => core rest

example : pySplit '/' (litS "a//b") = [litS "a", [], litS "b"] := by decide
example : pySplit '/' [] = [[]] := by decide
example : pyStrip '/' (litS "/a/b/") = litS "a/b" := by decide
example : pyInt (litS " 2024 ") = some 2024 := by decide
example : pyInt (litS "x1") = none := by decide
example : parseNumeric (litS "12.5") = some (125, 1) := by decide
example : decNumToRat (125, 1) = 12.5 := by norm_num [decNumToRat]
example : parseNumeric (litS "") = none := by decide
example : parseNumeric (litS "abc") = none := by decide
example : parseDMYHM (litS "05/01/2024 10:30") =
  some ⟨⟨2024, 1, 5⟩, 10, 30⟩ := by decide
example : parseYMDHM (litS "2024/01/05 10:30") =
  some ⟨⟨2024, 1, 5⟩, 10, 30⟩ := by decide
example : intToStr 404 = litS "404" := by decide
example : intToStr (-3) = litS "-3" := by decide

/-!
## Listing crawler (`get_urls_prog_dia`, `get_urls_reprog_dia`)

The portal's listing endpoint `POST /Portal/browser/vistadatos` is modelled
as a function from the requested directory path (the `url` parameter) to the
two element families the source parses out of the returned HTML: the `id`
attributes of `<a class="infolist-link">` anchors and the `value` attributes
of `<input name="cbSelect">` elements.  One call to either crawler performs
one request per visited path; requests are counted in the result.
-/

/-- The listing endpoint, abstracted over the portal contents.  `links p` are
the anchor identifiers and `files p` the file-input download URLs parsed from
the page at path `p`. -/
structure Portal where
  links : Str → List Str
  files : Str → List Str

/-- `sorted(l, key=lambda x: x[0], reverse=True)` for integer keys: a stable
descending sort, modelled by insertion sort with the reflexive "greater or
equal key" relation (equal keys stay in original order, as in Python). -/
def sortDescInt (l : List (Int × Str)) : List (Int × Str) :=
  List.insertionSort (fun a b => b.1 ≤ a.1) l

/-- `sorted(l, key=lambda x: x[0], reverse=True)` for string keys. -/
def sortDescStr (l : List (Str × Str)) : List (Str × Str) :=
  List.insertionSort (fun a b => strLe b.1 a.1 = true) l

/-- `row.attrs["id"].strip("/").split("/")[-1]`. -/
def lastSegment (id : Str) : Str := pyLast (pySplit '/' (pyStrip '/' id))

/-- Year key: `int(id.strip("/").split("/")[-1])`. -/
def yearKey (id : Str) : Option Int := pyInt (lastSegment id)

/-- Month key: `int(id.strip("/").split("/")[-1].split("_")[0])`. -/
def monthKey (id : Str) : Option Int := pyInt (pyHead (pySplit '_' (lastSegment id)))

/-- Day key: `int(id.strip("/").split("/")[-1].split(" ")[-1])`. -/
def dayKey (id : Str) : Option Int := pyInt (pyLast (pySplit ' ' (lastSegment id)))

/-- Reprogram version label:
`re.sub(r"[^A-Za-z]", "", id.strip("/").split("/")[-1].split(" ")[-1])`. -/
def reprogKey (id : Str) : Str :=
  (pyLast (pySplit ' ' (lastSegment id))).filter Char.isAlpha

/-- Pair every anchor id on a page with its integer key; `none` models the
`ValueError` raised by `int(...)` on a non-numeric segment (the source parses
the whole comprehension before sorting, so one bad id aborts the call). -/
def keyed (key : Str → Option Int) (ids : List Str) : Option (List (Int × Str)) :=
  ids.mapM (fun i => (key i).map (fun k => (k, i)))

/-- `download_url.split("/")[-1]`: the filename of a download URL. -/
def fileNameOf (u : Str) : Str := pyLast (pySplit '/' u)

/-- One recorded tuple `(date_obj, file_name, download_url)` of
`get_urls_prog_dia`. -/
structure Entry3 where
  date : PyDate
  file_name : Str
  download_url : Str
deriving DecidableEq, Repr

/-- One recorded tuple `(date_obj, reprog_version, file_name, download_url)`
of `get_urls_reprog_dia`. -/
structure Entry4 where
  date : PyDate
  reprog_version : Str
  file_name : Str
  download_url : Str
deriving DecidableEq, Repr

/-- Result of one loop level: recorded entries in discovery order, number of
listing requests issued, and the `stop` flag. -/
structure CrawlRes (α : Type) where
  entries : List α
  count : Nat
  stop : Bool
deriving DecidableEq, Repr

/-- Innermost loop of `get_urls_prog_dia` over the (already sorted) day
rows.  Each iteration posts the day path (one request), resolves
`dt.date(year_int, month_int, day_int)` (`none` models the `ValueError` on an
invalid date), applies the stopping rule, and otherwise records one entry per
`cbSelect` input of the day page. -/
def progDays (P : Portal) (T : PyDate) (y m : Int) :
    List (Int × Str) → Option (CrawlRes Entry3)
  | [] => some ⟨[], 0, false⟩
  | (d, id) :: rest =>
    match mkPyDate y m d with
    | none => none
    | some dateObj =>
      if PyDate.lt dateObj T then some ⟨[], 1, true⟩
      else
        let es := (P.files id).map (fun u => ⟨dateObj, fileNameOf u, u⟩)
        match progDays P T y m rest with
        | none => none
        | some r => some ⟨es ++ r.entries, 1 + r.count, r.stop⟩

/-- Middle loop of `get_urls_prog_dia` over the sorted month rows: posts the
month path, parses and sorts the day rows, runs the day loop, and breaks out
of the remaining months when the day loop set `stop`. -/
def progMonths (P : Portal) (T : PyDate) (y : Int) :
    List (Int × Str) → Option (CrawlRes Entry3)
  | [] => some ⟨[], 0, false⟩
  | (m, id) :: rest =>
    match keyed dayKey (P.links id) with
    | none => none
    | some days =>
      match progDays P T y m (sortDescInt days) with
      | none => none
      | some r =>
        if r.stop then some ⟨r.entries, 1 + r.count, true⟩
        else
          match progMonths P T y rest with
          | none => none
          | some r2 => some ⟨r.entries ++ r2.entries, 1 + r.count + r2.count, r2.stop⟩

/-- Outer loop of `get_urls_prog_dia` over the sorted year rows. -/
def progYears (P : Portal) (T : PyDate) :
    List (Int × Str) → Option (CrawlRes Entry3)
  | [] => some ⟨[], 0, false⟩
  | (y, id) :: rest =>
    match keyed monthKey (P.links id) with
    | none => none
    | some months =>
      match progMonths P T y (sortDescInt months) with
      | none => none
      | some r =>
        if r.stop then some ⟨r.entries, 1 + r.count, true⟩
        else
          match progYears P T rest with
          | none => none
          | some r2 => some ⟨r.entries ++ r2.entries, 1 + r.count + r2.count, r2.stop⟩

/-- The base directory posted first by `get_urls_prog_dia`. -/
def progBase : Str := litS "Operación/Programa de Operación/Programa Diario/"

/-- Whole crawl of `get_urls_prog_dia` with its request count: the initial
post to the base directory (one request), year-key parsing and sorting, then
the nested loops. -/
def progCrawl (P : Portal) (T : PyDate) : Option (CrawlRes Entry3) :=
  match keyed yearKey (P.links progBase) with
  | none => none
  | some years =>
    match progYears P T (sortDescInt years) with
    | none => none
    | some r => some ⟨r.entries, 1 + r.count, r.stop⟩

/-- `get_urls_prog_dia(start_date_threshold)`: the returned
`dowload_urls_map` list (`none` models an uncaught exception). -/
def get_urls_prog_dia (P : Portal) (T : PyDate) : Option (List Entry3) :=
  (progCrawl P T).map (fun r => r.entries)

/-- Version loop of `get_urls_reprog_dia` over the sorted reprogram rows of
one day page: posts each version path (one request each) and records one
entry per `cbSelect` input.  The loop's `if stop: break` guard can never
fire here because `stop` is only ever set at the day level, immediately
followed by a `break`, so the loop body is a plain fold. -/
def reprogVers (P : Portal) (dateObj : PyDate) :
    List (Str × Str) → List Entry4 × Nat
  | [] => ([], 0)
  | (v, id) :: rest =>
    let es := (P.files id).map (fun u => ⟨dateObj, v, fileNameOf u, u⟩)
    let r := reprogVers P dateObj rest
    (es ++ r.1, 1 + r.2)

/-- Innermost day loop of `get_urls_reprog_dia`: posts the day path, applies
the stopping rule, then parses the reprogram-version rows from the same day
page, sorts them descending by label, and runs the version loop. -/
def reprogDays (P : Portal) (T : PyDate) (y m : Int) :
    List (Int × Str) → Option (CrawlRes Entry4)
  | [] => some ⟨[], 0, false⟩
  | (d, id) :: rest =>
    match mkPyDate y m d with
    | none => none
    | some dateObj =>
      if PyDate.lt dateObj T then some ⟨[], 1, true⟩
      else
        let vers := (P.links id).map (fun i => (reprogKey i, i))
        let rv := reprogVers P dateObj (sortDescStr vers)
        match reprogDays P T y m rest with
        | none => none
        | some r => some ⟨rv.1 ++ r.entries, 1 + rv.2 + r.count, r.stop⟩

/-- Month loop of `get_urls_reprog_dia`. -/
def reprogMonths (P : Portal) (T : PyDate) (y : Int) :
    List (Int × Str) → Option (CrawlRes Entry4)
  | [] => some ⟨[], 0, false⟩
  | (m, id) :: rest =>
    match keyed dayKey (P.links id) with
    | none => none
    | some days =>
      match reprogDays P T y m (sortDescInt days) with
      | none => none
      | some r =>
        if r.stop then some ⟨r.entries, 1 + r.count, true⟩
        else
          match reprogMonths P T y rest with
          | none => none
          | some r2 => some ⟨r.entries ++ r2.entries, 1 + r.count + r2.count, r2.stop⟩

/-- Year loop of `get_urls_reprog_dia`. -/
def reprogYears (P : Portal) (T : PyDate) :
    List (Int × Str) → Option (CrawlRes Entry4)
  | [] => some ⟨[], 0, false⟩
  | (y, id) :: rest =>
    match keyed monthKey (P.links id) with
    | none => none
    | some months =>
      match reprogMonths P T y (sortDescInt months) with
      | none => none
      | some r =>
        if r.stop then some ⟨r.entries, 1 + r.count, true⟩
        else
          match reprogYears P T rest with
          | none => none
          | some r2 => some ⟨r.entries ++ r2.entries, 1 + r.count + r2.count, r2.stop⟩

/-- The base directory posted first by `get_urls_reprog_dia`. -/
def reprogBase : Str :=
  litS "Operación/Programa de Operación/Reprograma Diario Operación/"

/-- Whole crawl of `get_urls_reprog_dia` with its request count. -/
def reprogCrawl (P : Portal) (T : PyDate) : Option (CrawlRes Entry4) :=
  match keyed yearKey (P.links reprogBase) with
  | none => none
  | some years =>
    match reprogYears P T (sortDescInt years) with
    | none => none
    | some r => some ⟨r.entries, 1 + r.count, r.stop⟩

/-- `get_urls_reprog_dia(start_date_threshold)`: the returned
`dowload_urls_map` list (`none` models an uncaught exception). -/
def get_urls_reprog_dia (P : Portal) (T : PyDate) : Option (List Entry4) :=
  (reprogCrawl P T).map (fun r => r.entries)

/-!
## `utils._raise_for_status`

An HTTP response is modelled by the attributes the source reads:
`status_code`, `reason`, `url`, and (for the executed-demand path) the result
of `.json()`.  Raising is modelled by returning `some` error; returning
normally is `none`.
-/

/-- A scalar JSON value inside one record of the `Data` payload. -/
inductive JCell where
  | cnull : JCell
  | cnum (v : DecNum) : JCell
  | cstr (s : Str) : JCell
deriving DecidableEq, Repr

/-- One record of the `Data` list: a flat JSON object (field name, value). -/
abbrev JRecord := List (Str × JCell)

/-- The value found under one key of the decoded JSON body.  `recs` is a
JSON array of flat objects — the only shape
`pd.DataFrame.from_records` accepts here; `malformed` stands for every other
JSON value (feeding it to `from_records` raises, which the source converts
to a null result). -/
inductive JData where
  | recs (rs : List JRecord) : JData
  | malformed : JData
deriving DecidableEq, Repr

/-- The decoded JSON body: a JSON object.  (A non-object body makes the
subscript `obj["Data"]` raise `TypeError`; that case is folded into
`Response.body = none` below, together with a body that fails to decode.) -/
abbrev JBody := List (Str × JData)

/-- The attributes of `requests.Response` the source reads.  `body = none`
models a response whose `.json()` call raises (malformed transport data). -/
structure Response where
  status_code : Int
  reason : Str
  url : Str
  body : Option JBody
deriving DecidableEq, Repr

/-- `requests.exceptions.HTTPError(http_error_msg, response=response)`: the
single exception class raised by `_raise_for_status`, carrying the formatted
message and the response object. -/
structure HTTPError where
  msg : Str
  response : Response
deriving DecidableEq, Repr

/-- `utils._raise_for_status(response)`: builds `http_error_msg` by the two
range tests of the source and raises `HTTPError` exactly when the message is
non-empty (`some` = raise, `none` = fall through). -/
def _raise_for_status (response : Response) : Option HTTPError :=
  let http_error_msg : Str :=
    if 400 ≤ response.status_code ∧ response.status_code < 500 then
      intToStr response.status_code ++ litS " Client Error:" ++
        litS " " ++ response.reason ++ litS " for url: " ++ response.url
    else if 500 ≤ response.status_code ∧ response.status_code < 600 then
      intToStr response.status_code ++ litS " Server Error:" ++
        litS " " ++ response.reason ++ litS " for url: " ++ response.url
    else []
  if http_error_msg ≠ [] then some ⟨http_error_msg, response⟩ else none

/-- The message `_raise_for_status` formats for a client error. -/
def clientErrMsg (response : Response) : Str :=
  intToStr response.status_code ++ litS " Client Error: " ++
    response.reason ++ litS " for url: " ++ response.url

/-- The message `_raise_for_status` formats for a server error. -/
def serverErrMsg (response : Response) : Str :=
  intToStr response.status_code ++ litS " Server Error: " ++
    response.reason ++ litS " for url: " ++ response.url

/-!
## CSV normalization in `get_medidores_generacion`

The three HTTP calls of `get_medidores_generacion` are transport; the claims
are about the normalization of the downloaded CSV text (source lines 69-76).
The parsed CSV (`pd.read_csv(..., dtype=str)`) is a header list plus rows of
text cells; the pipeline below translates the remaining lines one by one.
-/

/-- `pd.read_csv(StringIO(res.text), dtype=str)`: all cells as text. -/
structure RawCSV where
  headers : List Str
  rows : List (List Str)
deriving DecidableEq, Repr

/-- The output table: `reset_index()` makes `fechahora` the explicit first
column, followed by the numeric columns `num_headers`. -/
structure MedTable where
  num_headers : List Str
  rows : List (PyDateTime × List (Option DecNum))
deriving DecidableEq, Repr

/-- The timestamp column name of the generation-meters CSV. -/
def fechahoraCol : Str := litS "fechahora"

/-- Normalization pipeline of `get_medidores_generacion` (lines 70-76):
trim headers, parse `fechahora` with `%d/%m/%Y %H:%M`, set it as index,
coerce every remaining cell to numeric (`errors="coerce"`), drop rows that
are entirely missing, and reset the index.  `none` models a raised
exception: a missing or duplicated `fechahora` column (`KeyError` /
`to_datetime` on a frame) or a timestamp cell that does not parse. -/
def get_medidores_generacion (t : RawCSV) : Option MedTable :=
  let hs := t.headers.map pyTrim
  if hs.count fechahoraCol = 1 then
    let i := hs.indexOf fechahoraCol
    match t.rows.mapM (fun row => parseDMYHM (row.getD i [])) with
    | none => none
    | some stamps =>
      let numeric := t.rows.map (fun row => (row.eraseIdx i).map parseNumeric)
      let indexed := stamps.zip numeric
      let kept := indexed.filter (fun rc => rc.2.any Option.isSome)
      some ⟨hs.eraseIdx i, kept⟩
  else none

/-- The same normalization written as the specification describes it: one
pass over the rows, each row mapped to its parsed timestamp plus coerced
numeric cells, keeping exactly the rows with at least one numeric value.
Used to state the refinement in claim C5. -/
def medidoresSpecNorm (t : RawCSV) : Option MedTable :=
  let hs := t.headers.map pyTrim
  if hs.count fechahoraCol = 1 then
    let i := hs.indexOf fechahoraCol
    match t.rows.mapM (fun row =>
        (parseDMYHM (row.getD i [])).map
          (fun ts => (ts, (row.eraseIdx i).map parseNumeric))) with
    | none => none
    | some prs => some ⟨hs.eraseIdx i, prs.filter (fun rc => rc.2.any Option.isSome)⟩
  else none

/-!
## Executed demand (`get_demanda_ejecutado`, `process_demanda_ejecutado`)
-/

/-- One emitted log record: `logger.info` or `logger.exception`. -/
inductive LogMsg where
  | info (text : Str) : LogMsg
  | excep (text : Str) : LogMsg
deriving DecidableEq, Repr

/-- `get_demanda_ejecutado(start, end)`.  The transport call
`session.post(..., timeout=90)` is abstracted as its outcome: `Except.error e`
is a raised request exception (timeout, connection failure, malformed
transport) with text `e`, `Except.ok resp` a received response.  The
try/except of the source catches every exception — including the
`HTTPError` raised by `_raise_for_status` — logs it, and returns `None`. -/
def get_demanda_ejecutado (outcome : Except Str Response) :
    Option Response × List LogMsg :=
  let req := LogMsg.info (litS "Requesting 'demanda ejecutado'")
  match outcome with
  | .error e =>
    (none, [req, .excep (litS "Exception while requesting 'demanda ejecutado':\n" ++ e)])
  | .ok resp =>
    match _raise_for_status resp with
    | some err =>
      (none,
        [req, .excep (litS "Exception while requesting 'demanda ejecutado':\n" ++ err.msg)])
    | none =>
      (some resp, [req, .info (litS "Successfully fetched 'demanda ejecutado'")])

/-- The payload field and timestamp field names of the demand endpoint. -/
def dataKey : Str := litS "Data"

/-- The timestamp field name of the demand records. -/
def fechaKey : Str := litS "Fecha"

/-- Column order of `pd.DataFrame.from_records(rs)`: field names in first
appearance order across the records. -/
def colsOfRecords (rs : List JRecord) : List Str :=
  rs.foldl (fun acc r => acc ++ (r.map Prod.fst).filter (fun c => ¬ c ∈ acc)) []

/-- Cell of record `r` in column `c`: first field with that name, `none`
(pandas `NaN`) when the record lacks the field. -/
def recordCell (r : JRecord) (c : Str) : Option JCell :=
  (r.find? (fun f => f.1 = c)).map Prod.snd

/-- `pd.to_datetime(cell, format="%Y/%m/%d %H:%M")` on one `Fecha` cell of
the records frame.  A missing field or JSON `null` is `NaT` (`some none`);
a string cell must parse exactly; any other value raises (`none`). -/
def fechaCellParse (c : Option JCell) : Option (Option PyDateTime) :=
  match c with
  | none => some none
  | some JCell.cnull => some none
  | some (JCell.cstr s) => (parseYMDHM s).map some
  | some (JCell.cnum _) => none

/-- The processed executed-demand frame: the `from_records` column order,
the localized `Fecha` column, and the remaining columns' cells per row. -/
structure DemTable where
  cols : List Str
  fecha : List (Option TzDateTime)
  rows : List (List (Option JCell))
deriving DecidableEq, Repr

/-- `process_demanda_ejecutado(response)` (lines 452-473): decode the JSON
body, take its `Data` field, build a records frame, parse `Fecha` with
`%Y/%m/%d %H:%M` and localize it to `America/Lima`.  Every exception —
undecodable body, missing `Data` key, a `Data` value `from_records` rejects,
missing `Fecha` column, unparseable `Fecha` cell — is caught, logged, and
turned into `None`. -/
def process_demanda_ejecutado (resp : Response) : Option DemTable × List LogMsg :=
  let req := LogMsg.info (litS "Processing 'demanda ejecutado'")
  let fail := fun () =>
    ((none : Option DemTable),
      [req, LogMsg.excep (litS "Exception while processing 'demanda ejecutado'")])
  match resp.body with
  | none => fail ()
  | some fields =>
    match fields.find? (fun f => f.1 = dataKey) with
    | none => fail ()
    | some (_, JData.malformed) => fail ()
    | some (_, JData.recs rs) =>
      let cols := colsOfRecords rs
      if fechaKey ∈ cols then
        match rs.mapM (fun r => fechaCellParse (recordCell r fechaKey)) with
        | none => fail ()
        | some naive =>
          let localized := naive.map (fun o => o.map (fun n => TzDateTime.mk n tz_local))
          let others := cols.erase fechaKey
          some ⟨cols, localized, rs.map (fun r => others.map (recordCell r))⟩
            |> (fun t => (t, [req, LogMsg.info (litS "Successfully processed 'demanda ejecutado'")]))
      else fail ()

/-!
## Concrete instances used by witnesses and counterexamples
-/

/-- A one-year, one-month, one-day portal for the daily-program listing. -/
def exPortalProg : Portal where
  links p :=
    if p = progBase then [litS "/2024"]
    else if p = litS "/2024" then [litS "/2024/01_Ene"]
    else if p = litS "/2024/01_Ene" then [litS "/2024/01_Ene/Dia 01"]
    else []
  files p :=
    if p = litS "/2024/01_Ene/Dia 01" then [litS "ruta/archivo.zip"] else []

/-- A one-year, one-month, one-day, one-version portal for the reprogram
listing; the version folder is named `Reprograma 05B`. -/
def exPortalReprog : Portal where
  links p :=
    if p = reprogBase then [litS "/2024"]
    else if p = litS "/2024" then [litS "/2024/01_Ene"]
    else if p = litS "/2024/01_Ene" then [litS "/2024/01_Ene/Dia 01"]
    else if p = litS "/2024/01_Ene/Dia 01" then
      [litS "/2024/01_Ene/Dia 01/Reprograma 05B"]
    else []
  files p :=
    if p = litS "/2024/01_Ene/Dia 01/Reprograma 05B" then [litS "r/f.zip"] else []

example : get_urls_prog_dia exPortalProg ⟨2024, 1, 1⟩ =
    some [⟨⟨2024, 1, 1⟩, litS "archivo.zip", litS "ruta/archivo.zip"⟩] := by decide

example : (progCrawl exPortalProg ⟨2024, 1, 1⟩).map (fun r => r.count) = some 4 := by
  decide

example : get_urls_prog_dia exPortalProg ⟨2024, 1, 2⟩ = some [] := by decide

example : get_urls_reprog_dia exPortalReprog ⟨2024, 1, 1⟩ =
    some [⟨⟨2024, 1, 1⟩, litS "B", litS "f.zip", litS "r/f.zip"⟩] := by decide

example : (reprogCrawl exPortalReprog ⟨2024, 1, 1⟩).map (fun r => r.count) = some 5 := by
  decide

/-- The CSV of the specification's normalization example: a column with
cells `"12.5"`, `""`, `"abc"`, a second numeric column keeping one row
alive, and a header with surrounding whitespace. -/
def exCSV : RawCSV where
  headers := [litS " X ", litS "fechahora", litS "Y"]
  rows :=
    [[litS "12.5", litS "01/01/2024 00:00", litS ""],
     [litS "", litS "01/01/2024 00:30", litS "1"],
     [litS "abc", litS "01/01/2024 01:00", litS ""]]

example : get_medidores_generacion exCSV =
    some ⟨[litS "X", litS "Y"],
      [(⟨⟨2024, 1, 1⟩, 0, 0⟩, [some (125, 1), none]),
       (⟨⟨2024, 1, 1⟩, 0, 30⟩, [none, some (1, 0)])]⟩ := by decide

/-- A demand response whose single record has a whitespace-padded field name
and a null numeric value (its numeric cells are all missing). -/
def exDemResponse : Response where
  status_code := 200
  reason := litS "OK"
  url := litS "https://www.coes.org.pe/Portal/portalinformacion/Demanda"
  body := some [(dataKey,
    JData.recs [[(fechaKey, JCell.cstr (litS "2024/01/01 00:00")),
                 (litS " col ", JCell.cnull)]])]

example : (process_demanda_ejecutado exDemResponse).1 =
    some ⟨[fechaKey, litS " col "],
      [some ⟨⟨⟨2024, 1, 1⟩, 0, 0⟩, tz_local⟩],
      [[some JCell.cnull]]⟩ := by decide

/-!
## Shared lemmas
-/

theorem mapM_option_forall₂ {α β : Type} (f : α → Option β) :
    ∀ {l : List α} {ys : List β}, l.mapM f = some ys →
      List.Forall₂ (fun a b => f a = some b) l ys := by
  intro l
  induction l with
  | nil =>
    intro ys h
    simp only [List.mapM_nil, pure] at h
    cases h
    exact List.Forall₂.nil
  | cons a as ih =>
    intro ys h
    rw [List.mapM_cons] at h
    cases hfa : f a with
    | none => rw [hfa] at h; simp at h
    | some b =>
      rw [hfa] at h
      cases hrest : as.mapM f with
      | none => rw [hrest] at h; simp at h
      | some bs =>
        rw [hrest] at h
        simp only [Option.bind_eq_bind, Option.some_bind, pure] at h
        cases h
        exact List.Forall₂.cons hfa (ih hrest)

theorem forall₂_mem_right {α β : Type} {R : α → β → Prop} :
    ∀ {l : List α} {ys : List β}, List.Forall₂ R l ys →
      ∀ y ∈ ys, ∃ x ∈ l, R x y := by
  intro l ys h
  induction h with
  | nil => intro y hy; cases hy
  | cons hr _ ih =>
    intro y hy
    rcases List.mem_cons.mp hy with h1 | h2
    · exact ⟨_, List.mem_cons_self _ _, h1 ▸ hr⟩
    · obtain ⟨x, hx, hxy⟩ := ih y h2
      exact ⟨x, List.mem_cons_of_mem _ hx, hxy⟩

theorem keyed_forall₂ {key : Str → Option Int} {ids : List Str}
    {l : List (Int × Str)} (h : keyed key ids = some l) :
    List.Forall₂ (fun i p => (key i).map (fun k => (k, i)) = some p) ids l :=
  mapM_option_forall₂ _ h

theorem keyed_mem {key : Str → Option Int} {ids : List Str}
    {l : List (Int × Str)} (h : keyed key ids = some l) :
    ∀ p ∈ l, p.2 ∈ ids ∧ key p.2 = some p.1 := by
  intro p hp
  obtain ⟨i, hi, heq⟩ := forall₂_mem_right (keyed_forall₂ h) p hp
  cases hk : key i with
  | none => rw [hk] at heq; simp at heq
  | some k =>
    rw [hk] at heq
    simp only [Option.map_some', Option.some.injEq] at heq
    cases heq
    exact ⟨hi, hk⟩

theorem keyed_length {key : Str → Option Int} {ids : List Str}
    {l : List (Int × Str)} (h : keyed key ids = some l) :
    l.length = ids.length :=
  ((mapM_option_forall₂ _ h).length_eq).symm

theorem sortDescInt_perm (l : List (Int × Str)) : (sortDescInt l).Perm l :=
  List.perm_insertionSort _ l

theorem sortDescInt_sorted (l : List (Int × Str)) :
    List.Pairwise (fun a b : Int × Str => b.1 ≤ a.1) (sortDescInt l) := by
  haveI : IsTotal (Int × Str) (fun a b => b.1 ≤ a.1) := ⟨fun a b => le_total b.1 a.1⟩
  haveI : IsTrans (Int × Str) (fun a b => b.1 ≤ a.1) :=
    ⟨fun _ _ _ h1 h2 => le_trans h2 h1⟩
  exact List.sorted_insertionSort _ l

theorem strLe_refl : ∀ x : Str, strLe x x = true := by
  intro x
  induction x with
  | nil => rfl
  | cons a as ih => simp [strLe, lt_irrefl, ih]

theorem strLe_total : ∀ x y : Str, strLe x y = true ∨ strLe y x = true := by
  intro x
  induction x with
  | nil => intro y; left; rfl
  | cons a as ih =>
    intro y
    cases y with
    | nil => right; rfl
    | cons b bs =>
      rcases lt_trichotomy a b with h | h | h
      · left; simp [strLe, h]
      · subst h
        rcases ih bs with h2 | h2
        · left; simp [strLe, lt_irrefl, h2]
        · right; simp [strLe, lt_irrefl, h2]
      · right; simp [strLe, h]

theorem strLe_trans :
    ∀ x y z : Str, strLe x y = true → strLe y z = true → strLe x z = true := by
  intro x
  induction x with
  | nil => intro y z _ _; rfl
  | cons a as ih =>
    intro y z hxy hyz
    cases y with
    | nil => simp [strLe] at hxy
    | cons b bs =>
      cases z with
      | nil => simp [strLe] at hyz
      | cons c cs =>
        simp only [strLe] at hxy hyz ⊢
        rcases lt_trichotomy a b with hab | hab | hab
        · rcases lt_trichotomy b c with hbc | hbc | hbc
          · simp [lt_trans hab hbc]
          · subst hbc; simp [hab]
          · rw [if_neg (asymm hbc), if_pos hbc] at hyz; cases hyz
        · subst hab
          rcases lt_trichotomy a c with hac | hac | hac
          · simp [hac]
          · subst hac
            rw [if_neg (lt_irrefl a), if_neg (lt_irrefl a)] at hxy hyz ⊢
            exact ih _ _ hxy hyz
          · rw [if_neg (asymm hac), if_pos hac] at hyz; cases hyz
        · rw [if_neg (asymm hab), if_pos hab] at hxy; cases hxy

theorem sortDescStr_perm (l : List (Str × Str)) : (sortDescStr l).Perm l :=
  List.perm_insertionSort _ l

theorem sortDescStr_sorted (l : List (Str × Str)) :
    List.Pairwise (fun a b : Str × Str => strLe b.1 a.1 = true) (sortDescStr l) := by
  haveI : IsTotal (Str × Str) (fun a b => strLe b.1 a.1 = true) :=
    ⟨fun a b => (strLe_total b.1 a.1)⟩
  haveI : IsTrans (Str × Str) (fun a b => strLe b.1 a.1 = true) :=
    ⟨fun _ _ _ h1 h2 => strLe_trans _ _ _ h2 h1⟩
  exact List.sorted_insertionSort _ l

theorem pairwise_strict_of_nodup {l : List (Int × Str)}
    (hs : List.Pairwise (fun a b : Int × Str => b.1 ≤ a.1) l)
    (hn : (l.map Prod.fst).Nodup) :
    List.Pairwise (fun a b : Int × Str => b.1 < a.1) l := by
  have hne : List.Pairwise (fun a b : Int × Str => a.1 ≠ b.1) l :=
    List.pairwise_map.mp hn
  exact (hs.and hne).imp (fun h => lt_of_le_of_ne h.1 (Ne.symm h.2))


theorem mkPyDate_shape {y m d : Int} {dat : PyDate} (h : mkPyDate y m d = some dat) :
    dat = ⟨y, m, d⟩ := by
  unfold mkPyDate at h
  split at h
  · cases h; rfl
  · exact Option.noConfusion h

theorem progDays_entries {P : Portal} {T : PyDate} {y m : Int} :
    ∀ {ds : List (Int × Str)} {r : CrawlRes Entry3},
      progDays P T y m ds = some r →
      ∀ e ∈ r.entries, e.date.year = y ∧ e.date.month = m ∧
        e.date.day ∈ ds.map Prod.fst ∧ ¬ PyDate.lt e.date T := by
  intro ds
  induction ds with
  | nil =>
    intro r h e he
    cases h
    cases he
  | cons hd rest ih =>
    obtain ⟨d, id⟩ := hd
    intro r h e he
    simp only [progDays] at h
    split at h
    · exact Option.noConfusion h
    · rename_i dateObj hmk
      split at h
      · cases h; cases he
      · rename_i hlt
        split at h
        · exact Option.noConfusion h
        · rename_i r0 hrec
          cases h
          rcases List.mem_append.mp he with h1 | h2
          · obtain ⟨u, _, rfl⟩ := List.mem_map.mp h1
            have hsh := mkPyDate_shape hmk
            subst hsh
            exact ⟨rfl, rfl, List.mem_cons_self _ _, hlt⟩
          · obtain ⟨hy, hm, hd2, hT⟩ := ih hrec e h2
            exact ⟨hy, hm, List.mem_cons_of_mem _ hd2, hT⟩

theorem progMonths_entries {P : Portal} {T : PyDate} {y : Int} :
    ∀ {ms : List (Int × Str)} {r : CrawlRes Entry3},
      progMonths P T y ms = some r →
      ∀ e ∈ r.entries, e.date.year = y ∧ e.date.month ∈ ms.map Prod.fst ∧
        ¬ PyDate.lt e.date T := by
  intro ms
  induction ms with
  | nil =>
    intro r h e he
    cases h
    cases he
  | cons hd rest ih =>
    obtain ⟨m, id⟩ := hd
    intro r h e he
    simp only [progMonths] at h
    split at h
    · exact Option.noConfusion h
    · rename_i days hk
      split at h
      · exact Option.noConfusion h
      · rename_i r0 hday
        split at h
        · cases h
          obtain ⟨hy, hm, _, hT⟩ := progDays_entries hday e he
          exact ⟨hy, hm ▸ List.mem_cons_self _ _, hT⟩
        · split at h
          · exact Option.noConfusion h
          · rename_i r2 hrec
            cases h
            rcases List.mem_append.mp he with h1 | h2
            · obtain ⟨hy, hm, _, hT⟩ := progDays_entries hday e h1
              exact ⟨hy, hm ▸ List.mem_cons_self _ _, hT⟩
            · obtain ⟨hy, hm, hT⟩ := ih hrec e h2
              exact ⟨hy, List.mem_cons_of_mem _ hm, hT⟩

theorem progYears_entries {P : Portal} {T : PyDate} :
    ∀ {ys : List (Int × Str)} {r : CrawlRes Entry3},
      progYears P T ys = some r →
      ∀ e ∈ r.entries, e.date.year ∈ ys.map Prod.fst ∧ ¬ PyDate.lt e.date T := by
  intro ys
  induction ys with
  | nil =>
    intro r h e he
    cases h
    cases he
  | cons hd rest ih =>
    obtain ⟨y, id⟩ := hd
    intro r h e he
    simp only [progYears] at h
    split at h
    · exact Option.noConfusion h
    · rename_i months hk
      split at h
      · exact Option.noConfusion h
      · rename_i r0 hm
        split at h
        · cases h
          obtain ⟨hy, _, hT⟩ := progMonths_entries hm e he
          exact ⟨hy ▸ List.mem_cons_self _ _, hT⟩
        · split at h
          · exact Option.noConfusion h
          · rename_i r2 hrec
            cases h
            rcases List.mem_append.mp he with h1 | h2
            · obtain ⟨hy, _, hT⟩ := progMonths_entries hm e h1
              exact ⟨hy ▸ List.mem_cons_self _ _, hT⟩
            · obtain ⟨hy, hT⟩ := ih hrec e h2
              exact ⟨List.mem_cons_of_mem _ hy, hT⟩

theorem progCrawl_entries {P : Portal} {T : PyDate} {r : CrawlRes Entry3}
    (h : progCrawl P T = some r) :
    ∀ e ∈ r.entries, ¬ PyDate.lt e.date T := by
  intro e he
  unfold progCrawl at h
  split at h
  · exact Option.noConfusion h
  · rename_i years hk
    split at h
    · exact Option.noConfusion h
    · rename_i r0 hy
      cases h
      exact (progYears_entries hy e he).2

theorem reprogVers_entries {P : Portal} {dat : PyDate} :
    ∀ {vs : List (Str × Str)}, ∀ e ∈ (reprogVers P dat vs).1,
      e.date = dat ∧ e.reprog_version ∈ vs.map Prod.fst := by
  intro vs
  induction vs with
  | nil => intro e he; cases he
  | cons hd rest ih =>
    obtain ⟨v, id⟩ := hd
    intro e he
    simp only [reprogVers] at he
    rcases List.mem_append.mp he with h1 | h2
    · obtain ⟨u, _, rfl⟩ := List.mem_map.mp h1
      exact ⟨rfl, List.mem_cons_self _ _⟩
    · obtain ⟨hdat, hv⟩ := ih e h2
      exact ⟨hdat, List.mem_cons_of_mem _ hv⟩

theorem reprogVers_count {P : Portal} {dat : PyDate} :
    ∀ vs : List (Str × Str), (reprogVers P dat vs).2 = vs.length := by
  intro vs
  induction vs with
  | nil => rfl
  | cons hd rest ih =>
    obtain ⟨v, id⟩ := hd
    simp only [reprogVers, ih, List.length_cons]
    omega

theorem reprogDays_entries {P : Portal} {T : PyDate} {y m : Int} :
    ∀ {ds : List (Int × Str)} {r : CrawlRes Entry4},
      reprogDays P T y m ds = some r →
      ∀ e ∈ r.entries, e.date.year = y ∧ e.date.month = m ∧
        e.date.day ∈ ds.map Prod.fst ∧ ¬ PyDate.lt e.date T ∧
        (∃ i, (∃ p, i ∈ P.links p) ∧ e.reprog_version = reprogKey i) := by
  intro ds
  induction ds with
  | nil =>
    intro r h e he
    cases h
    cases he
  | cons hd rest ih =>
    obtain ⟨d, id⟩ := hd
    intro r h e he
    simp only [reprogDays] at h
    split at h
    · exact Option.noConfusion h
    · rename_i dateObj hmk
      split at h
      · cases h; cases he
      · rename_i hlt
        split at h
        · exact Option.noConfusion h
        · rename_i r0 hrec
          cases h
          rcases List.mem_append.mp he with h1 | h2
          · obtain ⟨hdat, hv⟩ := reprogVers_entries e h1
            have hsh := mkPyDate_shape hmk
            rw [hdat, hsh]
            refine ⟨rfl, rfl, List.mem_cons_self _ _, hsh ▸ hdat ▸ hlt, ?_⟩
            have hperm := (sortDescStr_perm
              ((P.links id).map (fun i => (reprogKey i, i)))).map Prod.fst
            have hv2 := hperm.mem_iff.mp hv
            rw [List.map_map] at hv2
            obtain ⟨i, hi, hkey⟩ := List.mem_map.mp hv2
            exact ⟨i, ⟨id, hi⟩, hkey.symm⟩
          · obtain ⟨hy, hm, hd2, hT, hvorig⟩ := ih hrec e h2
            exact ⟨hy, hm, List.mem_cons_of_mem _ hd2, hT, hvorig⟩

theorem reprogMonths_entries {P : Portal} {T : PyDate} {y : Int} :
    ∀ {ms : List (Int × Str)} {r : CrawlRes Entry4},
      reprogMonths P T y ms = some r →
      ∀ e ∈ r.entries, e.date.year = y ∧ e.date.month ∈ ms.map Prod.fst ∧
        ¬ PyDate.lt e.date T ∧
        (∃ i, (∃ p, i ∈ P.links p) ∧ e.reprog_version = reprogKey i) := by
  intro ms
  induction ms with
  | nil =>
    intro r h e he
    cases h
    cases he
  | cons hd rest ih =>
    obtain ⟨m, id⟩ := hd
    intro r h e he
    simp only [reprogMonths] at h
    split at h
    · exact Option.noConfusion h
    · rename_i days hk
      split at h
      · exact Option.noConfusion h
      · rename_i r0 hday
        split at h
        · cases h
          obtain ⟨hy, hm, _, hT, hv⟩ := reprogDays_entries hday e he
          exact ⟨hy, hm ▸ List.mem_cons_self _ _, hT, hv⟩
        · split at h
          · exact Option.noConfusion h
          · rename_i r2 hrec
            cases h
            rcases List.mem_append.mp he with h1 | h2
            · obtain ⟨hy, hm, _, hT, hv⟩ := reprogDays_entries hday e h1
              exact ⟨hy, hm ▸ List.mem_cons_self _ _, hT, hv⟩
            · obtain ⟨hy, hm, hT, hv⟩ := ih hrec e h2
              exact ⟨hy, List.mem_cons_of_mem _ hm, hT, hv⟩

theorem reprogYears_entries {P : Portal} {T : PyDate} :
    ∀ {ys : List (Int × Str)} {r : CrawlRes Entry4},
      reprogYears P T ys = some r →
      ∀ e ∈ r.entries, e.date.year ∈ ys.map Prod.fst ∧ ¬ PyDate.lt e.date T ∧
        (∃ i, (∃ p, i ∈ P.links p) ∧ e.reprog_version = reprogKey i) := by
  intro ys
  induction ys with
  | nil =>
    intro r h e he
    cases h
    cases he
  | cons hd rest ih =>
    obtain ⟨y, id⟩ := hd
    intro r h e he
    simp only [reprogYears] at h
    split at h
    · exact Option.noConfusion h
    · rename_i months hk
      split at h
      · exact Option.noConfusion h
      · rename_i r0 hm
        split at h
        · cases h
          obtain ⟨hy, _, hT, hv⟩ := reprogMonths_entries hm e he
          exact ⟨hy ▸ List.mem_cons_self _ _, hT, hv⟩
        · split at h
          · exact Option.noConfusion h
          · rename_i r2 hrec
            cases h
            rcases List.mem_append.mp he with h1 | h2
            · obtain ⟨hy, _, hT, hv⟩ := reprogMonths_entries hm e h1
              exact ⟨hy ▸ List.mem_cons_self _ _, hT, hv⟩
            · obtain ⟨hy, hT, hv⟩ := ih hrec e h2
              exact ⟨List.mem_cons_of_mem _ hy, hT, hv⟩

theorem reprogCrawl_entries {P : Portal} {T : PyDate} {r : CrawlRes Entry4}
    (h : reprogCrawl P T = some r) :
    ∀ e ∈ r.entries, ¬ PyDate.lt e.date T ∧
      (∃ i, (∃ p, i ∈ P.links p) ∧ e.reprog_version = reprogKey i) := by
  intro e he
  unfold reprogCrawl at h
  split at h
  · exact Option.noConfusion h
  · rename_i years hk
    split at h
    · exact Option.noConfusion h
    · rename_i r0 hy
      cases h
      exact (reprogYears_entries hy e he).2

theorem progDays_halt {P : Portal} {T : PyDate} {y m d : Int} {id : Str}
    {dat : PyDate} (hmk : mkPyDate y m d = some dat) (hlt : PyDate.lt dat T)
    (rest : List (Int × Str)) :
    progDays P T y m ((d, id) :: rest) = some ⟨[], 1, true⟩ := by
  simp only [progDays, hmk, if_pos hlt]

theorem reprogDays_halt {P : Portal} {T : PyDate} {y m d : Int} {id : Str}
    {dat : PyDate} (hmk : mkPyDate y m d = some dat) (hlt : PyDate.lt dat T)
    (rest : List (Int × Str)) :
    reprogDays P T y m ((d, id) :: rest) = some ⟨[], 1, true⟩ := by
  simp only [reprogDays, hmk, if_pos hlt]

theorem progMonths_stop_skip {P : Portal} {T : PyDate} {y : Int}
    {x : Int × Str} {r : CrawlRes Entry3} (h : progMonths P T y [x] = some r)
    (hstop : r.stop = true) (rest : List (Int × Str)) :
    progMonths P T y (x :: rest) = some r := by
  obtain ⟨m, id⟩ := x
  simp only [progMonths] at h ⊢
  split at h
  · exact Option.noConfusion h
  · rename_i days hk
    split at h
    · exact Option.noConfusion h
    · rename_i r0 hday
      split at h
      · rename_i hs0
        rw [if_pos hs0]
        exact h
      · cases h
        simp at hstop

theorem progYears_stop_skip {P : Portal} {T : PyDate}
    {x : Int × Str} {r : CrawlRes Entry3} (h : progYears P T [x] = some r)
    (hstop : r.stop = true) (rest : List (Int × Str)) :
    progYears P T (x :: rest) = some r := by
  obtain ⟨y, id⟩ := x
  simp only [progYears] at h ⊢
  split at h
  · exact Option.noConfusion h
  · rename_i months hk
    split at h
    · exact Option.noConfusion h
    · rename_i r0 hmon
      split at h
      · rename_i hs0
        rw [if_pos hs0]
        exact h
      · cases h
        simp at hstop

theorem reprogMonths_stop_skip {P : Portal} {T : PyDate} {y : Int}
    {x : Int × Str} {r : CrawlRes Entry4} (h : reprogMonths P T y [x] = some r)
    (hstop : r.stop = true) (rest : List (Int × Str)) :
    reprogMonths P T y (x :: rest) = some r := by
  obtain ⟨m, id⟩ := x
  simp only [reprogMonths] at h ⊢
  split at h
  · exact Option.noConfusion h
  · rename_i days hk
    split at h
    · exact Option.noConfusion h
    · rename_i r0 hday
      split at h
      · rename_i hs0
        rw [if_pos hs0]
        exact h
      · cases h
        simp at hstop

theorem reprogYears_stop_skip {P : Portal} {T : PyDate}
    {x : Int × Str} {r : CrawlRes Entry4} (h : reprogYears P T [x] = some r)
    (hstop : r.stop = true) (rest : List (Int × Str)) :
    reprogYears P T (x :: rest) = some r := by
  obtain ⟨y, id⟩ := x
  simp only [reprogYears] at h ⊢
  split at h
  · exact Option.noConfusion h
  · rename_i months hk
    split at h
    · exact Option.noConfusion h
    · rename_i r0 hmon
      split at h
      · rename_i hs0
        rw [if_pos hs0]
        exact h
      · cases h
        simp at hstop

theorem PyDate.le_refl (d : PyDate) : PyDate.le d d :=
  Or.inr ⟨rfl, Or.inr ⟨rfl, Int.le_refl _⟩⟩

theorem pairwise_of_all {α : Type} {R : α → α → Prop} :
    ∀ l : List α, (∀ a ∈ l, ∀ b ∈ l, R a b) → l.Pairwise R := by
  intro l
  induction l with
  | nil => intro _; exact List.Pairwise.nil
  | cons a as ih =>
    intro h
    exact List.Pairwise.cons
      (fun b hb => h a (List.mem_cons_self _ _) b (List.mem_cons_of_mem _ hb))
      (ih (fun x hx y hy =>
        h x (List.mem_cons_of_mem _ hx) y (List.mem_cons_of_mem _ hy)))

theorem nodup_sortDescInt {l : List (Int × Str)}
    (h : (l.map Prod.fst).Nodup) : ((sortDescInt l).map Prod.fst).Nodup :=
  (((sortDescInt_perm l).map Prod.fst).nodup_iff).mpr h

theorem sortDescInt_strict {l : List (Int × Str)} (h : (l.map Prod.fst).Nodup) :
    List.Pairwise (fun a b : Int × Str => b.1 < a.1) (sortDescInt l) :=
  pairwise_strict_of_nodup (sortDescInt_sorted l) (nodup_sortDescInt h)

theorem progDays_pairwise {P : Portal} {T : PyDate} {y m : Int} :
    ∀ {ds : List (Int × Str)} {r : CrawlRes Entry3},
      List.Pairwise (fun a b : Int × Str => b.1 ≤ a.1) ds →
      progDays P T y m ds = some r →
      List.Pairwise (fun a b : Entry3 => PyDate.le b.date a.date) r.entries := by
  intro ds
  induction ds with
  | nil =>
    intro r _ h
    cases h
    exact List.Pairwise.nil
  | cons hd rest ih =>
    obtain ⟨d, id⟩ := hd
    intro r hp h
    obtain ⟨hhead, htail⟩ := List.pairwise_cons.mp hp
    simp only [progDays] at h
    split at h
    · exact Option.noConfusion h
    · rename_i dateObj hmk
      split at h
      · cases h
        exact List.Pairwise.nil
      · rename_i hlt
        split at h
        · exact Option.noConfusion h
        · rename_i r0 hrec
          cases h
          have hsh := mkPyDate_shape hmk
          refine List.pairwise_append.mpr ⟨?_, ih htail hrec, ?_⟩
          · refine pairwise_of_all _ (fun a ha b hb => ?_)
            obtain ⟨u, _, rfl⟩ := List.mem_map.mp ha
            obtain ⟨u2, _, rfl⟩ := List.mem_map.mp hb
            exact PyDate.le_refl _
          · intro a ha b hb
            obtain ⟨u, _, rfl⟩ := List.mem_map.mp ha
            obtain ⟨hy, hm, hdmem, _⟩ := progDays_entries hrec b hb
            obtain ⟨p, hpmem, hpfst⟩ := List.mem_map.mp hdmem
            have hdle : b.date.day ≤ d := hpfst ▸ hhead p hpmem
            subst hsh
            exact Or.inr ⟨hy, Or.inr ⟨hm, hdle⟩⟩

theorem progMonths_pairwise {P : Portal} {T : PyDate} {y : Int} :
    ∀ {ms : List (Int × Str)} {r : CrawlRes Entry3},
      List.Pairwise (fun a b : Int × Str => b.1 < a.1) ms →
      progMonths P T y ms = some r →
      List.Pairwise (fun a b : Entry3 => PyDate.le b.date a.date) r.entries := by
  intro ms
  induction ms with
  | nil =>
    intro r _ h
    cases h
    exact List.Pairwise.nil
  | cons hd rest ih =>
    obtain ⟨m, id⟩ := hd
    intro r hp h
    obtain ⟨hhead, htail⟩ := List.pairwise_cons.mp hp
    simp only [progMonths] at h
    split at h
    · exact Option.noConfusion h
    · rename_i days hk
      split at h
      · exact Option.noConfusion h
      · rename_i r0 hday
        split at h
        · cases h
          have hh := progDays_pairwise (sortDescInt_sorted days) hday
          exact hh
        · split at h
          · exact Option.noConfusion h
          · rename_i r2 hrec
            cases h
            refine List.pairwise_append.mpr
              ⟨progDays_pairwise (sortDescInt_sorted days) hday, ih htail hrec, ?_⟩
            intro a ha b hb
            obtain ⟨hay, ham, _, _⟩ := progDays_entries hday a ha
            obtain ⟨hby, hbmem, _⟩ := progMonths_entries hrec b hb
            obtain ⟨p, hpmem, hpfst⟩ := List.mem_map.mp hbmem
            have hmlt : b.date.month < m := hpfst ▸ hhead p hpmem
            exact Or.inr ⟨hby.trans hay.symm, Or.inl (ham ▸ hmlt)⟩

theorem progYears_pairwise {P : Portal} {T : PyDate}
    (Hm : ∀ (p : Str) (l : List (Int × Str)),
      keyed monthKey (P.links p) = some l → (l.map Prod.fst).Nodup) :
    ∀ {ys : List (Int × Str)} {r : CrawlRes Entry3},
      List.Pairwise (fun a b : Int × Str => b.1 < a.1) ys →
      progYears P T ys = some r →
      List.Pairwise (fun a b : Entry3 => PyDate.le b.date a.date) r.entries := by
  intro ys
  induction ys with
  | nil =>
    intro r _ h
    cases h
    exact List.Pairwise.nil
  | cons hd rest ih =>
    obtain ⟨y, id⟩ := hd
    intro r hp h
    obtain ⟨hhead, htail⟩ := List.pairwise_cons.mp hp
    simp only [progYears] at h
    split at h
    · exact Option.noConfusion h
    · rename_i months hk
      split at h
      · exact Option.noConfusion h
      · rename_i r0 hmon
        have hms := sortDescInt_strict (Hm id months hk)
        split at h
        · cases h
          have hh := progMonths_pairwise hms hmon
          exact hh
        · split at h
          · exact Option.noConfusion h
          · rename_i r2 hrec
            cases h
            refine List.pairwise_append.mpr
              ⟨progMonths_pairwise hms hmon, ih htail hrec, ?_⟩
            intro a ha b hb
            obtain ⟨hay, _, _⟩ := progMonths_entries hmon a ha
            obtain ⟨hbmem, _⟩ := progYears_entries hrec b hb
            obtain ⟨p, hpmem, hpfst⟩ := List.mem_map.mp hbmem
            have hylt : b.date.year < y := hpfst ▸ hhead p hpmem
            exact Or.inl (hay ▸ hylt)

/-- Discovery order of the reprogram crawler: a later entry has a strictly
earlier date, or the same date and a label not above the earlier entry's
(version labels are non-increasing within one date). -/
def entry4Rel (a b : Entry4) : Prop :=
  PyDate.lt b.date a.date ∨
    (b.date = a.date ∧ strLe b.reprog_version a.reprog_version = true)

theorem reprogVers_pairwise {P : Portal} {dat : PyDate} :
    ∀ {vs : List (Str × Str)},
      List.Pairwise (fun a b : Str × Str => strLe b.1 a.1 = true) vs →
      List.Pairwise entry4Rel (reprogVers P dat vs).1 := by
  intro vs
  induction vs with
  | nil => intro _; exact List.Pairwise.nil
  | cons hd rest ih =>
    obtain ⟨v, id⟩ := hd
    intro hp
    obtain ⟨hhead, htail⟩ := List.pairwise_cons.mp hp
    simp only [reprogVers]
    refine List.pairwise_append.mpr ⟨?_, ih htail, ?_⟩
    · refine pairwise_of_all _ (fun a ha b hb => ?_)
      obtain ⟨u, _, rfl⟩ := List.mem_map.mp ha
      obtain ⟨u2, _, rfl⟩ := List.mem_map.mp hb
      exact Or.inr ⟨rfl, strLe_refl v⟩
    · intro a ha b hb
      obtain ⟨u, _, rfl⟩ := List.mem_map.mp ha
      obtain ⟨hbd, hbv⟩ := reprogVers_entries b hb
      obtain ⟨p, hpmem, hpfst⟩ := List.mem_map.mp hbv
      exact Or.inr ⟨hbd, hpfst ▸ hhead p hpmem⟩

theorem reprogDays_pairwise {P : Portal} {T : PyDate} {y m : Int} :
    ∀ {ds : List (Int × Str)} {r : CrawlRes Entry4},
      List.Pairwise (fun a b : Int × Str => b.1 < a.1) ds →
      reprogDays P T y m ds = some r →
      List.Pairwise entry4Rel r.entries := by
  intro ds
  induction ds with
  | nil =>
    intro r _ h
    cases h
    exact List.Pairwise.nil
  | cons hd rest ih =>
    obtain ⟨d, id⟩ := hd
    intro r hp h
    obtain ⟨hhead, htail⟩ := List.pairwise_cons.mp hp
    simp only [reprogDays] at h
    split at h
    · exact Option.noConfusion h
    · rename_i dateObj hmk
      split at h
      · cases h
        exact List.Pairwise.nil
      · rename_i hlt
        split at h
        · exact Option.noConfusion h
        · rename_i r0 hrec
          cases h
          have hsh := mkPyDate_shape hmk
          refine List.pairwise_append.mpr
            ⟨reprogVers_pairwise (sortDescStr_sorted _), ih htail hrec, ?_⟩
          intro a ha b hb
          obtain ⟨had, _⟩ := reprogVers_entries a ha
          obtain ⟨hby, hbm, hbmem, _, _⟩ := reprogDays_entries hrec b hb
          obtain ⟨p, hpmem, hpfst⟩ := List.mem_map.mp hbmem
          have hdlt : b.date.day < d := hpfst ▸ hhead p hpmem
          refine Or.inl ?_
          rw [had, hsh]
          exact Or.inr ⟨hby, Or.inr ⟨hbm, hdlt⟩⟩

theorem reprogMonths_pairwise {P : Portal} {T : PyDate} {y : Int}
    (Hd : ∀ (p : Str) (l : List (Int × Str)),
      keyed dayKey (P.links p) = some l → (l.map Prod.fst).Nodup) :
    ∀ {ms : List (Int × Str)} {r : CrawlRes Entry4},
      List.Pairwise (fun a b : Int × Str => b.1 < a.1) ms →
      reprogMonths P T y ms = some r →
      List.Pairwise entry4Rel r.entries := by
  intro ms
  induction ms with
  | nil =>
    intro r _ h
    cases h
    exact List.Pairwise.nil
  | cons hd rest ih =>
    obtain ⟨m, id⟩ := hd
    intro r hp h
    obtain ⟨hhead, htail⟩ := List.pairwise_cons.mp hp
    simp only [reprogMonths] at h
    split at h
    · exact Option.noConfusion h
    · rename_i days hk
      split at h
      · exact Option.noConfusion h
      · rename_i r0 hday
        have hds := sortDescInt_strict (Hd id days hk)
        split at h
        · cases h
          have hh := reprogDays_pairwise hds hday
          exact hh
        · split at h
          · exact Option.noConfusion h
          · rename_i r2 hrec
            cases h
            refine List.pairwise_append.mpr
              ⟨reprogDays_pairwise hds hday, ih htail hrec, ?_⟩
            intro a ha b hb
            obtain ⟨hay, ham, _, _, _⟩ := reprogDays_entries hday a ha
            obtain ⟨hby, hbmem, _, _⟩ := reprogMonths_entries hrec b hb
            obtain ⟨p, hpmem, hpfst⟩ := List.mem_map.mp hbmem
            have hmlt : b.date.month < m := hpfst ▸ hhead p hpmem
            exact Or.inl (Or.inr ⟨hby.trans hay.symm, Or.inl (ham ▸ hmlt)⟩)

theorem reprogYears_pairwise {P : Portal} {T : PyDate}
    (Hm : ∀ (p : Str) (l : List (Int × Str)),
      keyed monthKey (P.links p) = some l → (l.map Prod.fst).Nodup)
    (Hd : ∀ (p : Str) (l : List (Int × Str)),
      keyed dayKey (P.links p) = some l → (l.map Prod.fst).Nodup) :
    ∀ {ys : List (Int × Str)} {r : CrawlRes Entry4},
      List.Pairwise (fun a b : Int × Str => b.1 < a.1) ys →
      reprogYears P T ys = some r →
      List.Pairwise entry4Rel r.entries := by
  intro ys
  induction ys with
  | nil =>
    intro r _ h
    cases h
    exact List.Pairwise.nil
  | cons hd rest ih =>
    obtain ⟨y, id⟩ := hd
    intro r hp h
    obtain ⟨hhead, htail⟩ := List.pairwise_cons.mp hp
    simp only [reprogYears] at h
    split at h
    · exact Option.noConfusion h
    · rename_i months hk
      split at h
      · exact Option.noConfusion h
      · rename_i r0 hmon
        have hms := sortDescInt_strict (Hm id months hk)
        split at h
        · cases h
          have hh := reprogMonths_pairwise Hd hms hmon
          exact hh
        · split at h
          · exact Option.noConfusion h
          · rename_i r2 hrec
            cases h
            refine List.pairwise_append.mpr
              ⟨reprogMonths_pairwise Hd hms hmon, ih htail hrec, ?_⟩
            intro a ha b hb
            obtain ⟨hay, _, _⟩ := reprogMonths_entries hmon a ha
            obtain ⟨hbmem, _, _⟩ := reprogYears_entries hrec b hb
            obtain ⟨p, hpmem, hpfst⟩ := List.mem_map.mp hbmem
            have hylt : b.date.year < y := hpfst ▸ hhead p hpmem
            exact Or.inl (Or.inl (hay ▸ hylt))

theorem progCrawl_pairwise {P : Portal} {T : PyDate} {r : CrawlRes Entry3}
    (Hy : ∀ l : List (Int × Str),
      keyed yearKey (P.links progBase) = some l → (l.map Prod.fst).Nodup)
    (Hm : ∀ (p : Str) (l : List (Int × Str)),
      keyed monthKey (P.links p) = some l → (l.map Prod.fst).Nodup)
    (h : progCrawl P T = some r) :
    List.Pairwise (fun a b : Entry3 => PyDate.le b.date a.date) r.entries := by
  unfold progCrawl at h
  split at h
  · exact Option.noConfusion h
  · rename_i years hk
    split at h
    · exact Option.noConfusion h
    · rename_i r0 hy
      cases h
      have hh := progYears_pairwise Hm (sortDescInt_strict (Hy years hk)) hy
      exact hh

theorem reprogCrawl_pairwise {P : Portal} {T : PyDate} {r : CrawlRes Entry4}
    (Hy : ∀ l : List (Int × Str),
      keyed yearKey (P.links reprogBase) = some l → (l.map Prod.fst).Nodup)
    (Hm : ∀ (p : Str) (l : List (Int × Str)),
      keyed monthKey (P.links p) = some l → (l.map Prod.fst).Nodup)
    (Hd : ∀ (p : Str) (l : List (Int × Str)),
      keyed dayKey (P.links p) = some l → (l.map Prod.fst).Nodup)
    (h : reprogCrawl P T = some r) :
    List.Pairwise entry4Rel r.entries := by
  unfold reprogCrawl at h
  split at h
  · exact Option.noConfusion h
  · rename_i years hk
    split at h
    · exact Option.noConfusion h
    · rename_i r0 hy
      cases h
      have hh := reprogYears_pairwise Hm Hd (sortDescInt_strict (Hy years hk)) hy
      exact hh

theorem progDays_count (P : Portal) {T : PyDate} {y m : Int} :
    ∀ {ds : List (Int × Str)},
      (∀ p ∈ ds, ∃ dat, mkPyDate y m p.1 = some dat ∧ ¬ PyDate.lt dat T) →
      ∃ r, progDays P T y m ds = some r ∧ r.count = ds.length ∧ r.stop = false := by
  intro ds
  induction ds with
  | nil => intro _; exact ⟨⟨[], 0, false⟩, rfl, by simp, rfl⟩
  | cons hd rest ih =>
    obtain ⟨d, id⟩ := hd
    intro hall
    obtain ⟨dat, hmk, hnlt⟩ := hall (d, id) (List.mem_cons_self _ _)
    obtain ⟨r0, hrec, hcount, hstop⟩ :=
      ih (fun p hp => hall p (List.mem_cons_of_mem _ hp))
    refine ⟨⟨(P.files id).map (fun u => ⟨dat, fileNameOf u, u⟩) ++ r0.entries,
      1 + r0.count, r0.stop⟩, ?_, ?_, ?_⟩
    · simp only [progDays, hmk, if_neg hnlt, hrec]
    · simp only [hcount, List.length_cons]
      omega
    · exact hstop

theorem progMonths_count {P : Portal} {T : PyDate} {y : Int} {D : Nat} :
    ∀ {ms : List (Int × Str)},
      (∀ p ∈ ms, ∃ ds, keyed dayKey (P.links p.2) = some ds ∧ ds.length = D ∧
        (∀ q ∈ ds, ∃ dat, mkPyDate y p.1 q.1 = some dat ∧ ¬ PyDate.lt dat T)) →
      ∃ r, progMonths P T y ms = some r ∧ r.count = ms.length * (1 + D) ∧
        r.stop = false := by
  intro ms
  induction ms with
  | nil => intro _; exact ⟨⟨[], 0, false⟩, rfl, by simp, rfl⟩
  | cons hd rest ih =>
    obtain ⟨m, id⟩ := hd
    intro hall
    obtain ⟨ds, hk, hlen, hdays⟩ := hall (m, id) (List.mem_cons_self _ _)
    obtain ⟨r0, hday, hc0, hs0⟩ := progDays_count P
      (fun q hq => hdays q ((sortDescInt_perm ds).mem_iff.mp hq))
    obtain ⟨r2, hrec, hc2, hs2⟩ :=
      ih (fun p hp => hall p (List.mem_cons_of_mem _ hp))
    refine ⟨⟨r0.entries ++ r2.entries, 1 + r0.count + r2.count, r2.stop⟩, ?_, ?_, ?_⟩
    · simp only [progMonths, hk, hday, hs0, if_neg (Bool.false_ne_true), hrec]
    · have hsortlen : (sortDescInt ds).length = D :=
        ((sortDescInt_perm ds).length_eq).trans hlen
      simp only [hc0, hc2, hsortlen, List.length_cons]
      ring
    · exact hs2

theorem progYears_count {P : Portal} {T : PyDate} {M D : Nat} :
    ∀ {ys : List (Int × Str)},
      (∀ p ∈ ys, ∃ ms, keyed monthKey (P.links p.2) = some ms ∧ ms.length = M ∧
        (∀ q ∈ ms, ∃ ds, keyed dayKey (P.links q.2) = some ds ∧ ds.length = D ∧
          (∀ w ∈ ds, ∃ dat, mkPyDate p.1 q.1 w.1 = some dat ∧
            ¬ PyDate.lt dat T))) →
      ∃ r, progYears P T ys = some r ∧
        r.count = ys.length * (1 + M * (1 + D)) ∧ r.stop = false := by
  intro ys
  induction ys with
  | nil => intro _; exact ⟨⟨[], 0, false⟩, rfl, by simp, rfl⟩
  | cons hd rest ih =>
    obtain ⟨y, id⟩ := hd
    intro hall
    obtain ⟨ms, hk, hlen, hmons⟩ := hall (y, id) (List.mem_cons_self _ _)
    obtain ⟨r0, hmon, hc0, hs0⟩ := progMonths_count
      (fun q hq => hmons q ((sortDescInt_perm ms).mem_iff.mp hq))
    obtain ⟨r2, hrec, hc2, hs2⟩ :=
      ih (fun p hp => hall p (List.mem_cons_of_mem _ hp))
    refine ⟨⟨r0.entries ++ r2.entries, 1 + r0.count + r2.count, r2.stop⟩, ?_, ?_, ?_⟩
    · simp only [progYears, hk, hmon, hs0, if_neg (Bool.false_ne_true), hrec]
    · have hsortlen : (sortDescInt ms).length = M :=
        ((sortDescInt_perm ms).length_eq).trans hlen
      simp only [hc0, hc2, hsortlen, List.length_cons]
      ring
    · exact hs2

theorem progCrawl_count {P : Portal} {T : PyDate} {N M D : Nat}
    {ys : List (Int × Str)}
    (hroot : keyed yearKey (P.links progBase) = some ys)
    (hN : ys.length = N)
    (hall : ∀ p ∈ ys, ∃ ms, keyed monthKey (P.links p.2) = some ms ∧
      ms.length = M ∧
      (∀ q ∈ ms, ∃ ds, keyed dayKey (P.links q.2) = some ds ∧ ds.length = D ∧
        (∀ w ∈ ds, ∃ dat, mkPyDate p.1 q.1 w.1 = some dat ∧
          ¬ PyDate.lt dat T))) :
    ∃ r, progCrawl P T = some r ∧ r.count = 1 + N + N * M + N * M * D := by
  obtain ⟨r0, hyears, hc0, _⟩ := progYears_count
    (fun p hp => hall p ((sortDescInt_perm ys).mem_iff.mp hp))
  refine ⟨⟨r0.entries, 1 + r0.count, r0.stop⟩, ?_, ?_⟩
  · simp only [progCrawl, hroot, hyears]
  · have hsortlen : (sortDescInt ys).length = N :=
      ((sortDescInt_perm ys).length_eq).trans hN
    simp only [hc0, hsortlen]
    ring

theorem reprogDays_count (P : Portal) {T : PyDate} {y m : Int} {V : Nat} :
    ∀ {ds : List (Int × Str)},
      (∀ p ∈ ds, (∃ dat, mkPyDate y m p.1 = some dat ∧ ¬ PyDate.lt dat T) ∧
        (P.links p.2).length = V) →
      ∃ r, reprogDays P T y m ds = some r ∧ r.count = ds.length * (1 + V) ∧
        r.stop = false := by
  intro ds
  induction ds with
  | nil => intro _; exact ⟨⟨[], 0, false⟩, rfl, by simp, rfl⟩
  | cons hd rest ih =>
    obtain ⟨d, id⟩ := hd
    intro hall
    obtain ⟨⟨dat, hmk, hnlt⟩, hV⟩ := hall (d, id) (List.mem_cons_self _ _)
    obtain ⟨r0, hrec, hcount, hstop⟩ :=
      ih (fun p hp => hall p (List.mem_cons_of_mem _ hp))
    refine ⟨⟨(reprogVers P dat
        (sortDescStr ((P.links id).map (fun i => (reprogKey i, i))))).1 ++ r0.entries,
      1 + (reprogVers P dat
        (sortDescStr ((P.links id).map (fun i => (reprogKey i, i))))).2 + r0.count,
      r0.stop⟩, ?_, ?_, ?_⟩
    · simp only [reprogDays, hmk, if_neg hnlt, hrec]
    · have hvl : (sortDescStr ((P.links id).map (fun i => (reprogKey i, i)))).length
          = V := by
        rw [(sortDescStr_perm _).length_eq, List.length_map, hV]
      rw [reprogVers_count, hvl, hcount, List.length_cons]
      ring
    · exact hstop

theorem reprogMonths_count {P : Portal} {T : PyDate} {y : Int} {D V : Nat} :
    ∀ {ms : List (Int × Str)},
      (∀ p ∈ ms, ∃ ds, keyed dayKey (P.links p.2) = some ds ∧ ds.length = D ∧
        (∀ q ∈ ds, (∃ dat, mkPyDate y p.1 q.1 = some dat ∧ ¬ PyDate.lt dat T) ∧
          (P.links q.2).length = V)) →
      ∃ r, reprogMonths P T y ms = some r ∧
        r.count = ms.length * (1 + D * (1 + V)) ∧ r.stop = false := by
  intro ms
  induction ms with
  | nil => intro _; exact ⟨⟨[], 0, false⟩, rfl, by simp, rfl⟩
  | cons hd rest ih =>
    obtain ⟨m, id⟩ := hd
    intro hall
    obtain ⟨ds, hk, hlen, hdays⟩ := hall (m, id) (List.mem_cons_self _ _)
    obtain ⟨r0, hday, hc0, hs0⟩ := reprogDays_count P
      (fun q hq => hdays q ((sortDescInt_perm ds).mem_iff.mp hq))
    obtain ⟨r2, hrec, hc2, hs2⟩ :=
      ih (fun p hp => hall p (List.mem_cons_of_mem _ hp))
    refine ⟨⟨r0.entries ++ r2.entries, 1 + r0.count + r2.count, r2.stop⟩, ?_, ?_, ?_⟩
    · simp only [reprogMonths, hk, hday, hs0, if_neg (Bool.false_ne_true), hrec]
    · have hsortlen : (sortDescInt ds).length = D :=
        ((sortDescInt_perm ds).length_eq).trans hlen
      simp only [hc0, hc2, hsortlen, List.length_cons]
      ring
    · exact hs2

theorem reprogYears_count {P : Portal} {T : PyDate} {M D V : Nat} :
    ∀ {ys : List (Int × Str)},
      (∀ p ∈ ys, ∃ ms, keyed monthKey (P.links p.2) = some ms ∧ ms.length = M ∧
        (∀ q ∈ ms, ∃ ds, keyed dayKey (P.links q.2) = some ds ∧ ds.length = D ∧
          (∀ w ∈ ds, (∃ dat, mkPyDate p.1 q.1 w.1 = some dat ∧
            ¬ PyDate.lt dat T) ∧ (P.links w.2).length = V))) →
      ∃ r, reprogYears P T ys = some r ∧
        r.count = ys.length * (1 + M * (1 + D * (1 + V))) ∧ r.stop = false := by
  intro ys
  induction ys with
  | nil => intro _; exact ⟨⟨[], 0, false⟩, rfl, by simp, rfl⟩
  | cons hd rest ih =>
    obtain ⟨y, id⟩ := hd
    intro hall
    obtain ⟨ms, hk, hlen, hmons⟩ := hall (y, id) (List.mem_cons_self _ _)
    obtain ⟨r0, hmon, hc0, hs0⟩ := reprogMonths_count
      (fun q hq => hmons q ((sortDescInt_perm ms).mem_iff.mp hq))
    obtain ⟨r2, hrec, hc2, hs2⟩ :=
      ih (fun p hp => hall p (List.mem_cons_of_mem _ hp))
    refine ⟨⟨r0.entries ++ r2.entries, 1 + r0.count + r2.count, r2.stop⟩, ?_, ?_, ?_⟩
    · simp only [reprogYears, hk, hmon, hs0, if_neg (Bool.false_ne_true), hrec]
    · have hsortlen : (sortDescInt ms).length = M :=
        ((sortDescInt_perm ms).length_eq).trans hlen
      simp only [hc0, hc2, hsortlen, List.length_cons]
      ring
    · exact hs2

theorem reprogCrawl_count {P : Portal} {T : PyDate} {N M D V : Nat}
    {ys : List (Int × Str)}
    (hroot : keyed yearKey (P.links reprogBase) = some ys)
    (hN : ys.length = N)
    (hall : ∀ p ∈ ys, ∃ ms, keyed monthKey (P.links p.2) = some ms ∧
      ms.length = M ∧
      (∀ q ∈ ms, ∃ ds, keyed dayKey (P.links q.2) = some ds ∧ ds.length = D ∧
        (∀ w ∈ ds, (∃ dat, mkPyDate p.1 q.1 w.1 = some dat ∧
          ¬ PyDate.lt dat T) ∧ (P.links w.2).length = V))) :
    ∃ r, reprogCrawl P T = some r ∧
      r.count = 1 + N + N * M + N * M * D + N * M * D * V := by
  obtain ⟨r0, hyears, hc0, _⟩ := reprogYears_count
    (fun p hp => hall p ((sortDescInt_perm ys).mem_iff.mp hp))
  refine ⟨⟨r0.entries, 1 + r0.count, r0.stop⟩, ?_, ?_⟩
  · simp only [reprogCrawl, hroot, hyears]
  · have hsortlen : (sortDescInt ys).length = N :=
      ((sortDescInt_perm ys).length_eq).trans hN
    simp only [hc0, hsortlen]
    ring

theorem mapM_fuse {α β γ : Type} (f : α → Option β) (g : α → γ) :
    ∀ l : List α, l.mapM (fun a => (f a).map (fun b => (b, g a))) =
      (l.mapM f).map (fun bs => bs.zip (l.map g)) := by
  intro l
  induction l with
  | nil => rfl
  | cons a as ih =>
    rw [List.mapM_cons, List.mapM_cons]
    cases hfa : f a with
    | none => rfl
    | some b =>
      cases hrest : as.mapM f with
      | none =>
        have hfused : as.mapM (fun a => (f a).map (fun b => (b, g a))) = none := by
          rw [ih, hrest]; rfl
        rw [hfused]
        rfl
      | some bs =>
        have hfused : as.mapM (fun a => (f a).map (fun b => (b, g a)))
            = some (bs.zip (as.map g)) := by
          rw [ih, hrest]; rfl
        rw [hfused]
        rfl

theorem medidores_eq_spec (t : RawCSV) :
    get_medidores_generacion t = medidoresSpecNorm t := by
  unfold get_medidores_generacion medidoresSpecNorm
  dsimp only
  by_cases hc : (t.headers.map pyTrim).count fechahoraCol = 1
  · rw [if_pos hc, if_pos hc]
    rw [mapM_fuse (fun row : List Str => parseDMYHM
      (row.getD ((t.headers.map pyTrim).indexOf fechahoraCol) []))
      (fun row : List Str => (row.eraseIdx
        ((t.headers.map pyTrim).indexOf fechahoraCol)).map parseNumeric)]
    cases hstamps : t.rows.mapM (fun row => parseDMYHM
        (row.getD ((t.headers.map pyTrim).indexOf fechahoraCol) [])) with
    | none => rfl
    | some stamps => rfl
  · rw [if_neg hc, if_neg hc]

theorem medidores_invariants {t : RawCSV} {out : MedTable}
    (h : get_medidores_generacion t = some out) :
    (∀ hc ∈ out.num_headers, ∃ h0 ∈ t.headers, hc = pyTrim h0) ∧
    (∀ row ∈ out.rows, ∃ c ∈ row.2, c ≠ none) ∧
    (∀ row ∈ out.rows, ∃ s, parseDMYHM s = some row.1) := by
  unfold get_medidores_generacion at h
  dsimp only at h
  split at h
  · rename_i hcount
    split at h
    · exact Option.noConfusion h
    · rename_i stamps hstamps
      cases h
      refine ⟨?_, ?_, ?_⟩
      · intro hc hmem
        have hsub : hc ∈ t.headers.map pyTrim :=
          (List.eraseIdx_sublist (t.headers.map pyTrim)
            ((t.headers.map pyTrim).indexOf fechahoraCol)).mem hmem
        obtain ⟨h0, hh0, hh0eq⟩ := List.mem_map.mp hsub
        exact ⟨h0, hh0, hh0eq.symm⟩
      · intro row hmem
        have hpred := List.of_mem_filter hmem
        obtain ⟨c, hcmem, hcs⟩ := List.any_eq_true.mp hpred
        exact ⟨c, hcmem, by cases c <;> simp_all⟩
      · intro row hmem
        have hzip := List.mem_of_mem_filter hmem
        have hfst : row.1 ∈ stamps := (List.of_mem_zip hzip).1
        obtain ⟨src, _, hsrc⟩ :=
          forall₂_mem_right (mapM_option_forall₂ _ hstamps) row.1 hfst
        exact ⟨_, hsrc⟩
  · exact Option.noConfusion h

theorem natDigits_ne_nil (n : Nat) : natDigits n ≠ [] := by
  unfold natDigits
  rw [natDigitsAux]
  split
  · simp
  · simp

theorem intToStr_ne_nil (i : Int) : intToStr i ≠ [] := by
  unfold intToStr
  split
  · simp
  · exact natDigits_ne_nil _

theorem clientErrMsg_ne_nil (r : Response) : clientErrMsg r ≠ [] := by
  unfold clientErrMsg
  intro hnil
  have h1 := congrArg List.length hnil
  simp only [List.length_append, List.length_nil] at h1
  have h3 : (intToStr r.status_code).length = 0 := by omega
  exact intToStr_ne_nil _ (List.length_eq_zero.mp h3)

theorem serverErrMsg_ne_nil (r : Response) : serverErrMsg r ≠ [] := by
  unfold serverErrMsg
  intro hnil
  have h1 := congrArg List.length hnil
  simp only [List.length_append, List.length_nil] at h1
  have h3 : (intToStr r.status_code).length = 0 := by omega
  exact intToStr_ne_nil _ (List.length_eq_zero.mp h3)

theorem raise_for_status_client {r : Response}
    (h4 : 400 ≤ r.status_code) (h5 : r.status_code < 500) :
    _raise_for_status r = some ⟨clientErrMsg r, r⟩ := by
  have hc1 : 400 ≤ r.status_code ∧ r.status_code < 500 := ⟨h4, h5⟩
  unfold _raise_for_status
  dsimp only
  rw [if_pos hc1]
  have hmsg : intToStr r.status_code ++ litS " Client Error:" ++
      litS " " ++ r.reason ++ litS " for url: " ++ r.url = clientErrMsg r := by
    unfold clientErrMsg
    rw [List.append_assoc (intToStr r.status_code) (litS " Client Error:") (litS " "),
      (by decide : litS " Client Error:" ++ litS " " = litS " Client Error: ")]
  rw [hmsg, if_pos (clientErrMsg_ne_nil r)]

theorem raise_for_status_server {r : Response}
    (h5 : 500 ≤ r.status_code) (h6 : r.status_code < 600) :
    _raise_for_status r = some ⟨serverErrMsg r, r⟩ := by
  unfold _raise_for_status
  dsimp only
  rw [if_neg (by omega : ¬ (400 ≤ r.status_code ∧ r.status_code < 500))]
  rw [if_pos (show 500 ≤ r.status_code ∧ r.status_code < 600 from ⟨h5, h6⟩)]
  have hmsg : intToStr r.status_code ++ litS " Server Error:" ++
      litS " " ++ r.reason ++ litS " for url: " ++ r.url = serverErrMsg r := by
    unfold serverErrMsg
    rw [List.append_assoc (intToStr r.status_code) (litS " Server Error:") (litS " "),
      (by decide : litS " Server Error:" ++ litS " " = litS " Server Error: ")]
  rw [hmsg, if_pos (serverErrMsg_ne_nil r)]

theorem raise_for_status_none {r : Response}
    (h : r.status_code < 400 ∨ 600 ≤ r.status_code) :
    _raise_for_status r = none := by
  unfold _raise_for_status
  dsimp only
  rw [if_neg (by omega : ¬ (400 ≤ r.status_code ∧ r.status_code < 500))]
  rw [if_neg (by omega : ¬ (500 ≤ r.status_code ∧ r.status_code < 600))]
  simp

theorem client_server_msg_ne (r : Response) : clientErrMsg r ≠ serverErrMsg r := by
  intro h
  unfold clientErrMsg serverErrMsg at h
  simp only [List.append_assoc] at h
  have h2 := List.append_cancel_left h
  simp [litS] at h2

theorem process_success_shape {resp : Response} {t : DemTable} {logs : List LogMsg}
    (h : process_demanda_ejecutado resp = (some t, logs)) :
    ∃ fields k rs naive, resp.body = some fields ∧
      fields.find? (fun f => f.1 = dataKey) = some (k, JData.recs rs) ∧
      fechaKey ∈ colsOfRecords rs ∧
      rs.mapM (fun r => fechaCellParse (recordCell r fechaKey)) = some naive ∧
      t = ⟨colsOfRecords rs,
        naive.map (fun o => o.map (fun n => TzDateTime.mk n tz_local)),
        rs.map (fun r => ((colsOfRecords rs).erase fechaKey).map (recordCell r))⟩ := by
  unfold process_demanda_ejecutado at h
  dsimp only at h
  split at h
  · injection h with h1 h2
    exact Option.noConfusion h1
  · rename_i fields hbody
    split at h
    · injection h with h1 h2
      exact Option.noConfusion h1
    · injection h with h1 h2
      exact Option.noConfusion h1
    · rename_i k rs hfind
      split at h
      · rename_i hcol
        split at h
        · injection h with h1 h2
          exact Option.noConfusion h1
        · rename_i naive hnaive
          injection h with h1 h2
          injection h1 with h3
          exact ⟨fields, k, rs, naive, hbody, hfind, hcol, hnaive, h3.symm⟩
      · injection h with h1 h2
        exact Option.noConfusion h1

theorem process_fecha_elems {resp : Response} {t : DemTable} {logs : List LogMsg}
    (h : process_demanda_ejecutado resp = (some t, logs)) :
    ∀ f ∈ t.fecha, ∀ td, f = some td → td.tz = tz_local ∧
      ∃ s, parseYMDHM s = some td.naive := by
  obtain ⟨fields, k, rs, naive, _, _, _, hnaive, ht⟩ := process_success_shape h
  subst ht
  intro f hf td hftd
  obtain ⟨o, ho, hoeq⟩ := List.mem_map.mp hf
  subst hoeq
  cases o with
  | none => exact Option.noConfusion hftd
  | some n =>
    simp only [Option.map_some', Option.some.injEq] at hftd
    subst hftd
    refine ⟨rfl, ?_⟩
    obtain ⟨r, _, hr⟩ :=
      forall₂_mem_right (mapM_option_forall₂ _ hnaive) (some n) ho
    unfold fechaCellParse at hr
    split at hr
    · injection hr with hr2
      exact Option.noConfusion hr2
    · injection hr with hr2
      exact Option.noConfusion hr2
    · rename_i s _
      cases hp : parseYMDHM s with
      | none => rw [hp] at hr; exact Option.noConfusion hr
      | some n2 =>
        rw [hp] at hr
        simp only [Option.map_some', Option.some.injEq] at hr
        cases hr
        exact ⟨s, hp⟩
    · exact Option.noConfusion hr

theorem fetch_error_none (e : Str) :
    (get_demanda_ejecutado (Except.error e)).1 = none ∧
    LogMsg.excep (litS "Exception while requesting 'demanda ejecutado':\n" ++ e)
      ∈ (get_demanda_ejecutado (Except.error e)).2 := by
  refine ⟨rfl, ?_⟩
  unfold get_demanda_ejecutado
  exact List.mem_cons_of_mem _ (List.mem_cons_self _ _)

theorem fetch_http_error_none {resp : Response} {err : HTTPError}
    (h : _raise_for_status resp = some err) :
    (get_demanda_ejecutado (Except.ok resp)).1 = none ∧
    LogMsg.excep (litS "Exception while requesting 'demanda ejecutado':\n" ++ err.msg)
      ∈ (get_demanda_ejecutado (Except.ok resp)).2 := by
  have hval : get_demanda_ejecutado (Except.ok resp)
      = (none, [LogMsg.info (litS "Requesting 'demanda ejecutado'"),
          LogMsg.excep (litS "Exception while requesting 'demanda ejecutado':
"
            ++ err.msg)]) := by
    unfold get_demanda_ejecutado
    dsimp only
    simp only [h]
  rw [hval]
  exact ⟨rfl, List.mem_cons_of_mem _ (List.mem_cons_self _ _)⟩

theorem process_no_body_none {resp : Response} (h : resp.body = none) :
    (process_demanda_ejecutado resp).1 = none ∧
    LogMsg.excep (litS "Exception while processing 'demanda ejecutado'")
      ∈ (process_demanda_ejecutado resp).2 := by
  unfold process_demanda_ejecutado
  rw [h]
  exact ⟨rfl, List.mem_cons_of_mem _ (List.mem_cons_self _ _)⟩

theorem process_no_data_none {resp : Response} {fields : JBody}
    (hb : resp.body = some fields)
    (hf : fields.find? (fun f => f.1 = dataKey) = none) :
    (process_demanda_ejecutado resp).1 = none ∧
    LogMsg.excep (litS "Exception while processing 'demanda ejecutado'")
      ∈ (process_demanda_ejecutado resp).2 := by
  unfold process_demanda_ejecutado
  rw [hb]
  dsimp only
  rw [hf]
  exact ⟨rfl, List.mem_cons_of_mem _ (List.mem_cons_self _ _)⟩

/-!
## Claim theorems
-/

/-- C2: for every HTTP response, `_raise_for_status` raises a client error
exactly when the status code is in [400,500) and a server error exactly when
it is in [500,600), each carrying the status code, the reason phrase, and
the request URL in its message, and returns normally (no effect) for every
other status code. -/
theorem C2_raise_for_status_classification :
    ∀ r : Response,
      (400 ≤ r.status_code → r.status_code < 500 →
        _raise_for_status r = some ⟨clientErrMsg r, r⟩) ∧
      (500 ≤ r.status_code → r.status_code < 600 →
        _raise_for_status r = some ⟨serverErrMsg r, r⟩) ∧
      (r.status_code < 400 ∨ 600 ≤ r.status_code → _raise_for_status r = none) ∧
      clientErrMsg r = intToStr r.status_code ++ litS " Client Error: " ++
        r.reason ++ litS " for url: " ++ r.url ∧
      serverErrMsg r = intToStr r.status_code ++ litS " Server Error: " ++
        r.reason ++ litS " for url: " ++ r.url :=
  fun _ =>
    ⟨fun h4 h5 => raise_for_status_client h4 h5,
     fun h5 h6 => raise_for_status_server h5 h6,
     fun h => raise_for_status_none h, rfl, rfl⟩

/-- A 404 response used to instantiate the error-classification claims. -/
def r404 : Response := ⟨404, litS "Not Found", litS "https://coes.example/a", none⟩

/-- A 503 response used to instantiate the error-classification claims. -/
def r503 : Response :=
  ⟨503, litS "Service Unavailable", litS "https://coes.example/b", none⟩

/-- A 200 response used to instantiate the error-classification claims. -/
def r200 : Response := ⟨200, litS "OK", litS "https://coes.example/c", none⟩

/-- Witness for C2 at statuses 404, 503 and 200. -/
theorem C2_witness :
    _raise_for_status r404 = some ⟨clientErrMsg r404, r404⟩ ∧
    _raise_for_status r503 = some ⟨serverErrMsg r503, r503⟩ ∧
    _raise_for_status r200 = none :=
  ⟨(C2_raise_for_status_classification r404).1 (by decide) (by decide),
   (C2_raise_for_status_classification r503).2.1 (by decide) (by decide),
   (C2_raise_for_status_classification r200).2.2.1 (Or.inl (by decide))⟩

/-- C10: for every status in [400,600), `_raise_for_status` raises the single
exception class `HTTPError` (one structure in this model) carrying the
response object; the 4xx and 5xx cases differ only in the message text
(`Client Error` versus `Server Error`), which does distinguish them. -/
theorem C10_single_exception_class :
    (∀ r : Response, 400 ≤ r.status_code → r.status_code < 600 →
      ∃ e : HTTPError, _raise_for_status r = some e ∧ e.response = r ∧
        ((r.status_code < 500 ∧ e.msg = clientErrMsg r) ∨
          (500 ≤ r.status_code ∧ e.msg = serverErrMsg r))) ∧
    (∀ r : Response, clientErrMsg r ≠ serverErrMsg r) := by
  constructor
  · intro r h4 h6
    by_cases h5 : r.status_code < 500
    · exact ⟨⟨clientErrMsg r, r⟩, raise_for_status_client h4 h5, rfl,
        Or.inl ⟨h5, rfl⟩⟩
    · exact ⟨⟨serverErrMsg r, r⟩,
        raise_for_status_server (by omega) h6, rfl,
        Or.inr ⟨by omega, rfl⟩⟩
  · exact client_server_msg_ne

/-- Witness for C10 at statuses 404 and 503. -/
theorem C10_witness :
    (∃ e : HTTPError, _raise_for_status r404 = some e ∧ e.response = r404 ∧
      ((r404.status_code < 500 ∧ e.msg = clientErrMsg r404) ∨
        (500 ≤ r404.status_code ∧ e.msg = serverErrMsg r404))) ∧
    (∃ e : HTTPError, _raise_for_status r503 = some e ∧ e.response = r503 ∧
      ((r503.status_code < 500 ∧ e.msg = clientErrMsg r503) ∨
        (500 ≤ r503.status_code ∧ e.msg = serverErrMsg r503))) ∧
    clientErrMsg r404 ≠ serverErrMsg r404 :=
  ⟨C10_single_exception_class.1 r404 (by decide) (by decide),
   C10_single_exception_class.1 r503 (by decide) (by decide),
   C10_single_exception_class.2 r404⟩

/-- C5: the CSV normalization of `get_medidores_generacion` equals the
specification's one-pass description (trim headers, parse the timestamp
column with the fixed day/month/year hour:minute format and key rows by it,
coerce every other column to numeric with unparseable cells becoming
missing, keep exactly the rows with at least one numeric value, and return
the timestamp as an explicit column); the column `"12.5"`, `""`, `"abc"`
coerces to `[12.5, NaN, NaN]`, an all-missing row is dropped, and a row with
one numeric value is kept. -/
theorem C5_csv_normalization :
    (∀ t : RawCSV, get_medidores_generacion t = medidoresSpecNorm t) ∧
    get_medidores_generacion exCSV =
      some ⟨[litS "X", litS "Y"],
        [(⟨⟨2024, 1, 1⟩, 0, 0⟩, [some (125, 1), none]),
         (⟨⟨2024, 1, 1⟩, 0, 30⟩, [none, some (1, 0)])]⟩ ∧
    [litS "12.5", litS "", litS "abc"].map parseNumeric =
      [some (125, 1), none, none] ∧
    decNumToRat (125, 1) = 12.5 :=
  ⟨medidores_eq_spec, by decide, by decide, by norm_num [decNumToRat]⟩

/-- C6: `get_demanda_ejecutado` converts every exception arising from the
request — a raised transport error (timeout, malformed transport data) or
the `HTTPError` of an error status — into a `None` result plus a logged
exception, and `process_demanda_ejecutado` does the same for processing
failures, in particular an undecodable body and a JSON body lacking the
`Data` field. -/
theorem C6_soft_failure_boundaries :
    (∀ e : Str, (get_demanda_ejecutado (Except.error e)).1 = none ∧
      LogMsg.excep (litS "Exception while requesting 'demanda ejecutado':\n" ++ e)
        ∈ (get_demanda_ejecutado (Except.error e)).2) ∧
    (∀ (resp : Response) (err : HTTPError), _raise_for_status resp = some err →
      (get_demanda_ejecutado (Except.ok resp)).1 = none ∧
      LogMsg.excep (litS "Exception while requesting 'demanda ejecutado':\n"
          ++ err.msg)
        ∈ (get_demanda_ejecutado (Except.ok resp)).2) ∧
    (∀ resp : Response, resp.body = none →
      (process_demanda_ejecutado resp).1 = none ∧
      LogMsg.excep (litS "Exception while processing 'demanda ejecutado'")
        ∈ (process_demanda_ejecutado resp).2) ∧
    (∀ (resp : Response) (fields : JBody), resp.body = some fields →
      fields.find? (fun f => f.1 = dataKey) = none →
      (process_demanda_ejecutado resp).1 = none ∧
      LogMsg.excep (litS "Exception while processing 'demanda ejecutado'")
        ∈ (process_demanda_ejecutado resp).2) :=
  ⟨fetch_error_none,
   fun _ _ h => fetch_http_error_none h,
   fun _ h => process_no_body_none h,
   fun _ _ hb hf => process_no_data_none hb hf⟩

/-- A response whose body decodes to an object without a `Data` field. -/
def noDataResponse : Response :=
  ⟨200, litS "OK", litS "https://coes.example/d",
    some [(litS "Other", JData.recs [])]⟩

/-- A response whose body fails to decode. -/
def noBodyResponse : Response := ⟨200, litS "OK", litS "https://coes.example/e", none⟩

/-- Witness for C6: a timeout, an HTTP 503 during fetch, an undecodable
body, and a body lacking `Data` all yield `None` plus a logged exception. -/
theorem C6_witness :
    ((get_demanda_ejecutado (Except.error (litS "timeout"))).1 = none ∧
      LogMsg.excep (litS "Exception while requesting 'demanda ejecutado':\n"
          ++ litS "timeout")
        ∈ (get_demanda_ejecutado (Except.error (litS "timeout"))).2) ∧
    (get_demanda_ejecutado (Except.ok r503)).1 = none ∧
    (process_demanda_ejecutado noBodyResponse).1 = none ∧
    (process_demanda_ejecutado noDataResponse).1 = none :=
  ⟨C6_soft_failure_boundaries.1 (litS "timeout"),
   (C6_soft_failure_boundaries.2.1 r503 ⟨serverErrMsg r503, r503⟩ (by decide)).1,
   (C6_soft_failure_boundaries.2.2.1 noBodyResponse rfl).1,
   (C6_soft_failure_boundaries.2.2.2 noDataResponse
     [(litS "Other", JData.recs [])] rfl (by decide)).1⟩

/-- C1: no returned entry of either crawler has a date strictly earlier than
the threshold; the first day resolving to a date strictly earlier than the
threshold makes the day loop return immediately with no entries for that
date and the remaining (already sorted later) days untraversed, and a set
stop flag makes every outer loop skip its remaining iterations, so entries
after that point — including any from the same date — are never recovered. -/
theorem C1_threshold_stopping :
    (∀ (P : Portal) (T : PyDate) (out : List Entry3),
      get_urls_prog_dia P T = some out → ∀ e ∈ out, ¬ PyDate.lt e.date T) ∧
    (∀ (P : Portal) (T : PyDate) (out : List Entry4),
      get_urls_reprog_dia P T = some out → ∀ e ∈ out, ¬ PyDate.lt e.date T) ∧
    (∀ (P : Portal) (T : PyDate) (y m d : Int) (id : Str) (dat : PyDate)
      (rest : List (Int × Str)), mkPyDate y m d = some dat → PyDate.lt dat T →
      progDays P T y m ((d, id) :: rest) = some ⟨[], 1, true⟩) ∧
    (∀ (P : Portal) (T : PyDate) (y m d : Int) (id : Str) (dat : PyDate)
      (rest : List (Int × Str)), mkPyDate y m d = some dat → PyDate.lt dat T →
      reprogDays P T y m ((d, id) :: rest) = some ⟨[], 1, true⟩) ∧
    (∀ (P : Portal) (T : PyDate) (y : Int) (x : Int × Str) (r : CrawlRes Entry3)
      (rest : List (Int × Str)), progMonths P T y [x] = some r → r.stop = true →
      progMonths P T y (x :: rest) = some r) ∧
    (∀ (P : Portal) (T : PyDate) (x : Int × Str) (r : CrawlRes Entry3)
      (rest : List (Int × Str)), progYears P T [x] = some r → r.stop = true →
      progYears P T (x :: rest) = some r) ∧
    (∀ (P : Portal) (T : PyDate) (y : Int) (x : Int × Str) (r : CrawlRes Entry4)
      (rest : List (Int × Str)), reprogMonths P T y [x] = some r → r.stop = true →
      reprogMonths P T y (x :: rest) = some r) ∧
    (∀ (P : Portal) (T : PyDate) (x : Int × Str) (r : CrawlRes Entry4)
      (rest : List (Int × Str)), reprogYears P T [x] = some r → r.stop = true →
      reprogYears P T (x :: rest) = some r) := by
  refine ⟨?_, ?_, ?_, ?_, ?_, ?_, ?_, ?_⟩
  · intro P T out h e he
    obtain ⟨r, hr, hout⟩ := Option.map_eq_some'.mp h
    subst hout
    exact progCrawl_entries hr e he
  · intro P T out h e he
    obtain ⟨r, hr, hout⟩ := Option.map_eq_some'.mp h
    subst hout
    exact (reprogCrawl_entries hr e he).1
  · intro P T y m d id dat rest hmk hlt
    exact progDays_halt hmk hlt rest
  · intro P T y m d id dat rest hmk hlt
    exact reprogDays_halt hmk hlt rest
  · intro P T y x r rest h hs
    exact progMonths_stop_skip h hs rest
  · intro P T x r rest h hs
    exact progYears_stop_skip h hs rest
  · intro P T y x r rest h hs
    exact reprogMonths_stop_skip h hs rest
  · intro P T x r rest h hs
    exact reprogYears_stop_skip h hs rest

/-- Witness for C1 on the concrete portals: the returned entries respect the
threshold, a breaching day halts the day loop at once with the rest of the
day list (here a leftover `(99, …)` row) untouched, and a stop result from
the first month or year skips every later month or year. -/
theorem C1_witness :
    (¬ PyDate.lt (⟨2024, 1, 1⟩ : PyDate) ⟨2024, 1, 1⟩) ∧
    (¬ PyDate.lt (⟨2024, 1, 1⟩ : PyDate) ⟨2023, 12, 31⟩) ∧
    progDays exPortalProg ⟨2024, 1, 2⟩ 2024 1
      [(1, litS "/2024/01_Ene/Dia 01"), (99, litS "ignored")] =
      some ⟨[], 1, true⟩ ∧
    reprogDays exPortalReprog ⟨2024, 1, 2⟩ 2024 1
      [(1, litS "/2024/01_Ene/Dia 01"), (99, litS "ignored")] =
      some ⟨[], 1, true⟩ ∧
    progMonths exPortalProg ⟨2024, 1, 2⟩ 2024
      [(1, litS "/2024/01_Ene"), (0, litS "skipped")] = some ⟨[], 2, true⟩ ∧
    progYears exPortalProg ⟨2024, 1, 2⟩
      [(2024, litS "/2024"), (2023, litS "skipped")] = some ⟨[], 3, true⟩ ∧
    reprogMonths exPortalReprog ⟨2024, 1, 2⟩ 2024
      [(1, litS "/2024/01_Ene"), (0, litS "skipped")] = some ⟨[], 2, true⟩ ∧
    reprogYears exPortalReprog ⟨2024, 1, 2⟩
      [(2024, litS "/2024"), (2023, litS "skipped")] = some ⟨[], 3, true⟩ :=
  ⟨C1_threshold_stopping.1 exPortalProg ⟨2024, 1, 1⟩
      [⟨⟨2024, 1, 1⟩, litS "archivo.zip", litS "ruta/archivo.zip"⟩] (by decide)
      ⟨⟨2024, 1, 1⟩, litS "archivo.zip", litS "ruta/archivo.zip"⟩
      (List.mem_cons_self _ _),
   C1_threshold_stopping.2.1 exPortalReprog ⟨2023, 12, 31⟩
      [⟨⟨2024, 1, 1⟩, litS "B", litS "f.zip", litS "r/f.zip"⟩] (by decide)
      ⟨⟨2024, 1, 1⟩, litS "B", litS "f.zip", litS "r/f.zip"⟩
      (List.mem_cons_self _ _),
   C1_threshold_stopping.2.2.1 exPortalProg ⟨2024, 1, 2⟩ 2024 1 1
      (litS "/2024/01_Ene/Dia 01") ⟨2024, 1, 1⟩ [(99, litS "ignored")]
      (by decide) (by decide),
   C1_threshold_stopping.2.2.2.1 exPortalReprog ⟨2024, 1, 2⟩ 2024 1 1
      (litS "/2024/01_Ene/Dia 01") ⟨2024, 1, 1⟩ [(99, litS "ignored")]
      (by decide) (by decide),
   C1_threshold_stopping.2.2.2.2.1 exPortalProg ⟨2024, 1, 2⟩ 2024
      (1, litS "/2024/01_Ene") ⟨[], 2, true⟩ [(0, litS "skipped")]
      (by decide) rfl,
   C1_threshold_stopping.2.2.2.2.2.1 exPortalProg ⟨2024, 1, 2⟩
      (2024, litS "/2024") ⟨[], 3, true⟩ [(2023, litS "skipped")]
      (by decide) rfl,
   C1_threshold_stopping.2.2.2.2.2.2.1 exPortalReprog ⟨2024, 1, 2⟩ 2024
      (1, litS "/2024/01_Ene") ⟨[], 2, true⟩ [(0, litS "skipped")]
      (by decide) rfl,
   C1_threshold_stopping.2.2.2.2.2.2.2 exPortalReprog ⟨2024, 1, 2⟩
      (2024, litS "/2024") ⟨[], 3, true⟩ [(2023, litS "skipped")]
      (by decide) rfl⟩

/-- C3 counterexample: the crawler records version label `"B"` for the
identifier `/2024/01_Ene/Dia 01/Reprograma 05B`, but stripping everything
except alphabetic characters from that identifier's final path segment — the
claim's stated rule — yields `"ReprogramaB"`, not `"B"`; and an identifier
segment ending in the token `ReprogramB` yields label `"ReprogramB"`, not
the claimed `"B"`. -/
theorem C3_counterexample :
    get_urls_reprog_dia exPortalReprog ⟨2024, 1, 1⟩ =
      some [⟨⟨2024, 1, 1⟩, litS "B", litS "f.zip", litS "r/f.zip"⟩] ∧
    (lastSegment (litS "/2024/01_Ene/Dia 01/Reprograma 05B")).filter Char.isAlpha
      = litS "ReprogramaB" ∧
    litS "ReprogramaB" ≠ litS "B" ∧
    reprogKey (litS "/2024/x ReprogramB") = litS "ReprogramB" ∧
    reprogKey (litS "/2024/x ReprogramB") ≠ litS "B" :=
  ⟨by decide, by decide, by decide, by decide, by decide⟩

/-- C3 (amended): the reprogram version label is obtained from the last
space-separated token of the identifier's final path segment by stripping
everything except alphabetic characters; a segment ending in the token
`05B` yields label `"B"`, a final token with no letters yields the empty
label, and every label the crawler records is `reprogKey` of an identifier
listed on some visited page. -/
theorem C3_version_label_amended :
    (∀ id : Str, reprogKey id =
      (pyLast (pySplit ' ' (lastSegment id))).filter Char.isAlpha) ∧
    reprogKey (litS "/2024/01_Ene/Dia 01/Reprograma 05B") = litS "B" ∧
    reprogKey (litS "/2024/01_Ene/Dia 05") = [] ∧
    (∀ (P : Portal) (T : PyDate) (out : List Entry4),
      get_urls_reprog_dia P T = some out →
      ∀ e ∈ out, ∃ i, (∃ p, i ∈ P.links p) ∧ e.reprog_version = reprogKey i) := by
  refine ⟨fun id => rfl, by decide, by decide, ?_⟩
  intro P T out h e he
  obtain ⟨r, hr, hout⟩ := Option.map_eq_some'.mp h
  subst hout
  exact (reprogCrawl_entries hr e he).2

/-- Witness for C3 (amended) at the concrete reprogram portal. -/
theorem C3_witness :
    reprogKey (litS "/2024/01_Ene/Dia 01/Reprograma 05B") =
      (pyLast (pySplit ' '
        (lastSegment (litS "/2024/01_Ene/Dia 01/Reprograma 05B")))).filter
        Char.isAlpha ∧
    (∃ i, (∃ p, i ∈ exPortalReprog.links p) ∧
      (⟨⟨2024, 1, 1⟩, litS "B", litS "f.zip", litS "r/f.zip"⟩ :
        Entry4).reprog_version = reprogKey i) :=
  ⟨C3_version_label_amended.1 (litS "/2024/01_Ene/Dia 01/Reprograma 05B"),
   C3_version_label_amended.2.2.2 exPortalReprog ⟨2024, 1, 1⟩
     [⟨⟨2024, 1, 1⟩, litS "B", litS "f.zip", litS "r/f.zip"⟩] (by decide)
     ⟨⟨2024, 1, 1⟩, litS "B", litS "f.zip", litS "r/f.zip"⟩
     (List.mem_cons_self _ _)⟩

/-- C4 counterexample: on a portal with one year, one month and one day
(N = M = D = 1) and no threshold breach, the daily-program crawl issues 4
listing requests — the initial base-directory request plus one per visited
year, month, and day — while the claim's formula `N + N·M + N·M·D` predicts
3. -/
theorem C4_counterexample :
    (progCrawl exPortalProg ⟨2024, 1, 1⟩).map CrawlRes.count = some 4 ∧
    ¬ ((progCrawl exPortalProg ⟨2024, 1, 1⟩).map CrawlRes.count =
      some (1 + 1 * 1 + 1 * 1 * 1)) :=
  ⟨by decide, by decide⟩

/-- C4 (amended): with N parseable year rows, M month rows per year page, D
day rows per month page, all dates valid and at or after the threshold, the
daily-program crawl issues exactly `1 + N + N·M + N·M·D` listing requests
(the extra 1 is the initial base-directory listing), and the reprogram crawl
with V version rows per day page issues exactly
`1 + N + N·M + N·M·D + N·M·D·V`. -/
theorem C4_request_count_amended :
    (∀ (P : Portal) (T : PyDate) (N M D : Nat) (ys : List (Int × Str)),
      keyed yearKey (P.links progBase) = some ys → ys.length = N →
      (∀ p ∈ ys, ∃ ms, keyed monthKey (P.links p.2) = some ms ∧
        ms.length = M ∧
        (∀ q ∈ ms, ∃ ds, keyed dayKey (P.links q.2) = some ds ∧ ds.length = D ∧
          (∀ w ∈ ds, ∃ dat, mkPyDate p.1 q.1 w.1 = some dat ∧
            ¬ PyDate.lt dat T))) →
      (progCrawl P T).map CrawlRes.count = some (1 + N + N * M + N * M * D)) ∧
    (∀ (P : Portal) (T : PyDate) (N M D V : Nat) (ys : List (Int × Str)),
      keyed yearKey (P.links reprogBase) = some ys → ys.length = N →
      (∀ p ∈ ys, ∃ ms, keyed monthKey (P.links p.2) = some ms ∧
        ms.length = M ∧
        (∀ q ∈ ms, ∃ ds, keyed dayKey (P.links q.2) = some ds ∧ ds.length = D ∧
          (∀ w ∈ ds, (∃ dat, mkPyDate p.1 q.1 w.1 = some dat ∧
            ¬ PyDate.lt dat T) ∧ (P.links w.2).length = V))) →
      (reprogCrawl P T).map CrawlRes.count =
        some (1 + N + N * M + N * M * D + N * M * D * V)) := by
  constructor
  · intro P T N M D ys hroot hN hall
    obtain ⟨r, hr, hc⟩ := progCrawl_count hroot hN hall
    rw [hr, Option.map_some', hc]
  · intro P T N M D V ys hroot hN hall
    obtain ⟨r, hr, hc⟩ := reprogCrawl_count hroot hN hall
    rw [hr, Option.map_some', hc]

/-- Witness for C4 (amended) at the one-of-each portals (N = M = D = V = 1):
4 requests for the daily program, 5 for the reprogram. -/
theorem C4_witness :
    (progCrawl exPortalProg ⟨2024, 1, 1⟩).map CrawlRes.count =
      some (1 + 1 + 1 * 1 + 1 * 1 * 1) ∧
    (reprogCrawl exPortalReprog ⟨2024, 1, 1⟩).map CrawlRes.count =
      some (1 + 1 + 1 * 1 + 1 * 1 * 1 + 1 * 1 * 1 * 1) := by
  constructor
  · refine C4_request_count_amended.1 exPortalProg ⟨2024, 1, 1⟩ 1 1 1
      [(2024, litS "/2024")] (by decide) rfl ?_
    intro p hp
    rw [List.mem_singleton] at hp
    subst hp
    refine ⟨[(1, litS "/2024/01_Ene")], by decide, rfl, ?_⟩
    intro q hq
    rw [List.mem_singleton] at hq
    subst hq
    refine ⟨[(1, litS "/2024/01_Ene/Dia 01")], by decide, rfl, ?_⟩
    intro w hw
    rw [List.mem_singleton] at hw
    subst hw
    exact ⟨⟨2024, 1, 1⟩, by decide, by decide⟩
  · refine C4_request_count_amended.2 exPortalReprog ⟨2024, 1, 1⟩ 1 1 1 1
      [(2024, litS "/2024")] (by decide) rfl ?_
    intro p hp
    rw [List.mem_singleton] at hp
    subst hp
    refine ⟨[(1, litS "/2024/01_Ene")], by decide, rfl, ?_⟩
    intro q hq
    rw [List.mem_singleton] at hq
    subst hq
    refine ⟨[(1, litS "/2024/01_Ene/Dia 01")], by decide, rfl, ?_⟩
    intro w hw
    rw [List.mem_singleton] at hw
    subst hw
    exact ⟨⟨⟨2024, 1, 1⟩, by decide, by decide⟩, by decide⟩

/-- The frame `process_demanda_ejecutado` produces for `exDemResponse`. -/
def exDemTable : DemTable :=
  ⟨[fechaKey, litS " col "],
   [some ⟨⟨⟨2024, 1, 1⟩, 0, 0⟩, tz_local⟩],
   [[some JCell.cnull]]⟩

/-- C7: when `process_demanda_ejecutado` succeeds it extracts the `Data`
field of the decoded JSON body, builds one records frame from that list
(columns in first-appearance order, cells by field lookup), and every
non-missing `Fecha` timestamp is the `%Y/%m/%d %H:%M` parse of a source
string with the fixed `America/Lima` timezone attached — the wall-clock
value is the parsed one, unchanged. -/
theorem C7_process_success_extraction :
    ∀ (resp : Response) (t : DemTable) (logs : List LogMsg),
      process_demanda_ejecutado resp = (some t, logs) →
      (∃ fields k rs, resp.body = some fields ∧
        fields.find? (fun f => f.1 = dataKey) = some (k, JData.recs rs) ∧
        t.cols = colsOfRecords rs ∧
        t.rows = rs.map (fun r =>
          ((colsOfRecords rs).erase fechaKey).map (recordCell r)) ∧
        t.fecha.length = rs.length) ∧
      (∀ f ∈ t.fecha, ∀ td, f = some td →
        td.tz = tz_local ∧ ∃ s, parseYMDHM s = some td.naive) := by
  intro resp t logs h
  refine ⟨?_, process_fecha_elems h⟩
  obtain ⟨fields, k, rs, naive, hb, hf, _, hnaive, ht⟩ := process_success_shape h
  subst ht
  refine ⟨fields, k, rs, hb, hf, rfl, rfl, ?_⟩
  rw [List.length_map]
  exact ((mapM_option_forall₂ _ hnaive).length_eq).symm

/-- Witness for C7 at the concrete demand response. -/
theorem C7_witness :
    (∃ fields k rs, exDemResponse.body = some fields ∧
      fields.find? (fun f => f.1 = dataKey) = some (k, JData.recs rs) ∧
      exDemTable.cols = colsOfRecords rs ∧
      exDemTable.rows = rs.map (fun r =>
        ((colsOfRecords rs).erase fechaKey).map (recordCell r)) ∧
      exDemTable.fecha.length = rs.length) ∧
    ((⟨⟨⟨2024, 1, 1⟩, 0, 0⟩, tz_local⟩ : TzDateTime).tz = tz_local ∧
      ∃ s, parseYMDHM s = some ⟨⟨2024, 1, 1⟩, 0, 0⟩) := by
  have h := C7_process_success_extraction exDemResponse exDemTable
    [LogMsg.info (litS "Processing 'demanda ejecutado'"),
     LogMsg.info (litS "Successfully processed 'demanda ejecutado'")] (by decide)
  exact ⟨h.1, h.2 (some ⟨⟨⟨2024, 1, 1⟩, 0, 0⟩, tz_local⟩)
    (List.mem_cons_self _ _) ⟨⟨⟨2024, 1, 1⟩, 0, 0⟩, tz_local⟩ rfl⟩

/-- A cell of the records frame that pandas counts as missing (`NaN`): an
absent field or a JSON `null`. -/
def cellMissing (c : Option JCell) : Bool :=
  match c with
  | none => true
  | some JCell.cnull => true
  | some _ => false

/-- C8 counterexample: `process_demanda_ejecutado` produces a table that
keeps the field name `" col "` untrimmed and keeps a row whose numeric
cells are all missing, so the claimed invariants do not hold for every
produced table. -/
theorem C8_counterexample :
    (process_demanda_ejecutado exDemResponse).1 = some exDemTable ∧
    litS " col " ∈ exDemTable.cols ∧
    pyTrim (litS " col ") ≠ litS " col " ∧
    exDemTable.rows.filter (fun row => row.all cellMissing) =
      [[some JCell.cnull]] ∧
    ([[some JCell.cnull]] : List (List (Option JCell))) ≠ [] :=
  ⟨by decide, by decide, by decide, by decide, by decide⟩

/-- C8 (amended): the table returned by `get_medidores_generacion` satisfies
all three invariants — headers are trims of source headers, no row has all
numeric values missing, timestamps parse from the fixed `%d/%m/%Y %H:%M`
format — while a table produced by `process_demanda_ejecutado` only
guarantees the timestamp invariant (non-missing `Fecha` values parse from
the fixed `%Y/%m/%d %H:%M` format and carry the `America/Lima` timezone);
it drops no all-missing rows and trims no headers. -/
theorem C8_table_invariants_amended :
    (∀ (t : RawCSV) (out : MedTable), get_medidores_generacion t = some out →
      (∀ hc ∈ out.num_headers, ∃ h0 ∈ t.headers, hc = pyTrim h0) ∧
      (∀ row ∈ out.rows, ∃ c ∈ row.2, c ≠ none) ∧
      (∀ row ∈ out.rows, ∃ s, parseDMYHM s = some row.1)) ∧
    (∀ (resp : Response) (t : DemTable) (logs : List LogMsg),
      process_demanda_ejecutado resp = (some t, logs) →
      ∀ f ∈ t.fecha, ∀ td, f = some td →
        td.tz = tz_local ∧ ∃ s, parseYMDHM s = some td.naive) :=
  ⟨fun _ _ h => medidores_invariants h,
   fun _ _ _ h => process_fecha_elems h⟩

/-- Witness for C8 (amended) at the concrete CSV and demand response. -/
theorem C8_witness :
    ((∃ h0 ∈ exCSV.headers, litS "X" = pyTrim h0) ∧
      (∃ c ∈ [some ((125 : Int), (1 : Nat)), (none : Option DecNum)], c ≠ none) ∧
      (∃ s, parseDMYHM s = some ⟨⟨2024, 1, 1⟩, 0, 0⟩)) ∧
    ((⟨⟨⟨2024, 1, 1⟩, 0, 0⟩, tz_local⟩ : TzDateTime).tz = tz_local ∧
      ∃ s, parseYMDHM s = some ⟨⟨2024, 1, 1⟩, 0, 0⟩) := by
  have hmed := C8_table_invariants_amended.1 exCSV
    ⟨[litS "X", litS "Y"],
      [(⟨⟨2024, 1, 1⟩, 0, 0⟩, [some (125, 1), none]),
       (⟨⟨2024, 1, 1⟩, 0, 30⟩, [none, some (1, 0)])]⟩ (by decide)
  have hdem := C8_table_invariants_amended.2 exDemResponse exDemTable
    [LogMsg.info (litS "Processing 'demanda ejecutado'"),
     LogMsg.info (litS "Successfully processed 'demanda ejecutado'")] (by decide)
  refine ⟨⟨hmed.1 (litS "X") (List.mem_cons_self _ _), ?_, ?_⟩,
    hdem (some ⟨⟨⟨2024, 1, 1⟩, 0, 0⟩, tz_local⟩) (List.mem_cons_self _ _)
      ⟨⟨⟨2024, 1, 1⟩, 0, 0⟩, tz_local⟩ rfl⟩
  · exact hmed.2.1 (⟨⟨2024, 1, 1⟩, 0, 0⟩, [some (125, 1), none])
      (List.mem_cons_self _ _)
  · exact hmed.2.2 (⟨⟨2024, 1, 1⟩, 0, 0⟩, [some (125, 1), none])
      (List.mem_cons_self _ _)

theorem strLt_of_le_ne :
    ∀ x y : Str, strLe x y = true → x ≠ y → strLt x y = true := by
  intro x
  induction x with
  | nil =>
    intro y _ hne
    cases y with
    | nil => exact absurd rfl hne
    | cons b bs => rfl
  | cons a as ih =>
    intro y hle hne
    cases y with
    | nil => simp [strLe] at hle
    | cons b bs =>
      simp only [strLe, strLt] at hle ⊢
      rcases lt_trichotomy a b with h | h | h
      · simp [h]
      · subst h
        rw [if_neg (lt_irrefl a), if_neg (lt_irrefl a)] at hle ⊢
        exact ih bs hle (fun he => hne (by rw [he]))
      · rw [if_neg (asymm h), if_pos h] at hle
        cases hle

theorem sortDescStr_strict {l : List (Str × Str)} (h : (l.map Prod.fst).Nodup) :
    List.Pairwise (fun a b : Str × Str => strLt b.1 a.1 = true) (sortDescStr l) := by
  have hn : ((sortDescStr l).map Prod.fst).Nodup :=
    (((sortDescStr_perm l).map Prod.fst).nodup_iff).mpr h
  have hne : List.Pairwise (fun a b : Str × Str => a.1 ≠ b.1) (sortDescStr l) :=
    List.pairwise_map.mp hn
  exact ((sortDescStr_sorted l).and hne).imp
    (fun hab => strLt_of_le_ne _ _ hab.1 (fun he => hab.2 he.symm))

/-- A portal every page of which is empty, used to instantiate C9. -/
def emptyPortal : Portal where
  links := fun _ => []
  files := fun _ => []

/-- C9: each level's rows are sorted descending by key — strictly, when the
keys are duplicate-free (the spec leaves ties undefined) — and in the
returned lists the entry dates are non-increasing (newest first), with the
reprogram version labels non-increasing within each date
(`entry4Rel`). The duplicate-free-key hypotheses quantify over every page
of the portal. -/
theorem C9_descending_order :
    (∀ l : List (Int × Str), (l.map Prod.fst).Nodup →
      List.Chain' (fun a b : Int × Str => b.1 < a.1) (sortDescInt l)) ∧
    (∀ l : List (Str × Str), (l.map Prod.fst).Nodup →
      List.Chain' (fun a b : Str × Str => strLt b.1 a.1 = true) (sortDescStr l)) ∧
    (∀ (P : Portal) (T : PyDate) (out : List Entry3),
      (∀ l, keyed yearKey (P.links progBase) = some l →
        (l.map Prod.fst).Nodup) →
      (∀ (p : Str) l, keyed monthKey (P.links p) = some l →
        (l.map Prod.fst).Nodup) →
      get_urls_prog_dia P T = some out →
      List.Chain' (fun a b : Entry3 => PyDate.le b.date a.date) out) ∧
    (∀ (P : Portal) (T : PyDate) (out : List Entry4),
      (∀ l, keyed yearKey (P.links reprogBase) = some l →
        (l.map Prod.fst).Nodup) →
      (∀ (p : Str) l, keyed monthKey (P.links p) = some l →
        (l.map Prod.fst).Nodup) →
      (∀ (p : Str) l, keyed dayKey (P.links p) = some l →
        (l.map Prod.fst).Nodup) →
      get_urls_reprog_dia P T = some out →
      List.Chain' entry4Rel out) := by
  refine ⟨?_, ?_, ?_, ?_⟩
  · intro l h
    exact (sortDescInt_strict h).chain'
  · intro l h
    exact (sortDescStr_strict h).chain'
  · intro P T out Hy Hm h
    obtain ⟨r, hr, hout⟩ := Option.map_eq_some'.mp h
    subst hout
    exact (progCrawl_pairwise Hy Hm hr).chain'
  · intro P T out Hy Hm Hd h
    obtain ⟨r, hr, hout⟩ := Option.map_eq_some'.mp h
    subst hout
    exact (reprogCrawl_pairwise Hy Hm Hd hr).chain'

/-- Witness for C9: strictly descending sorts of concrete key lists, and the
crawler conclusions instantiated at the all-empty portal, whose pages all
have duplicate-free (empty) key lists. -/
theorem C9_witness :
    List.Chain' (fun a b : Int × Str => b.1 < a.1)
      (sortDescInt [(1, litS "a"), (3, litS "b"), (2, litS "c")]) ∧
    List.Chain' (fun a b : Str × Str => strLt b.1 a.1 = true)
      (sortDescStr [(litS "A", litS "x"), (litS "C", litS "y")]) ∧
    List.Chain' (fun a b : Entry3 => PyDate.le b.date a.date) [] ∧
    List.Chain' entry4Rel [] := by
  have hempty :
      ∀ (key : Str → Option Int) (p : Str) (l : List (Int × Str)),
        keyed key (emptyPortal.links p) = some l → (l.map Prod.fst).Nodup := by
    intro key p l h
    have h2 : (some [] : Option (List (Int × Str))) = some l := h
    cases h2
    exact List.nodup_nil
  refine ⟨C9_descending_order.1 [(1, litS "a"), (3, litS "b"), (2, litS "c")]
      (by decide),
    C9_descending_order.2.1 [(litS "A", litS "x"), (litS "C", litS "y")]
      (by decide),
    C9_descending_order.2.2.1 emptyPortal ⟨2024, 1, 1⟩ []
      (hempty yearKey progBase) (hempty monthKey) rfl,
    C9_descending_order.2.2.2 emptyPortal ⟨2024, 1, 1⟩ []
      (hempty yearKey reprogBase) (hempty monthKey) (hempty dayKey) rfl⟩
